import Mathlib

/-!
Verification development for the meilisearch-embedder-proxy repository.

The Go sources are shallowly embedded as executable Lean definitions:

* `Meep.Hash` models `internal/hash/hash.go` (normalization pipeline and
  SHA-256 fingerprinting; machine words are `Nat` reduced mod 2^32).
* `Meep.Store` models the `embedding_cache` table and
  `database.StoreEmbedding` / lookup functions (the table is a list of
  rows; the database's own transport failures are external and omitted).
* `Meep.Provider` models `internal/openai`'s `CreateBatchEmbeddings`
  retry loop, with the remote call abstracted as a function from the
  attempt number to that attempt's outcome.
* `Meep.Cache` models `internal/cache/cache.go` (validation, the
  single/batch orchestration paths) and the server's `handleEmbed`
  ordering of validation before processing.
* `Meep.Tracker` models `internal/tracker` as a small-step state machine
  over explicit scheduler action lists.
-/

namespace Meep

namespace Hash

/-- Model of Go `unicode.IsSpace`: the Unicode White_Space code points
(this is the exact set recognized by Go's `unicode.IsSpace`). -/
def goIsSpace (c : Char) : Bool :=
  c = '\t' || c = '\n' || c.toNat = 11 || c.toNat = 12 || c = '\r' || c = ' ' ||
  c.toNat = 0x85 || c.toNat = 0xA0 || c.toNat = 0x1680 ||
  (0x2000 ≤ c.toNat && c.toNat ≤ 0x200A) ||
  c.toNat = 0x2028 || c.toNat = 0x2029 || c.toNat = 0x202F ||
  c.toNat = 0x205F || c.toNat = 0x3000

/-- Model of Go `unicode.IsControl`: true exactly for the Latin-1 Cc
code points (U+0000..U+001F and U+007F..U+009F); false above U+00FF. -/
def goIsControl (c : Char) : Bool :=
  c.toNat ≤ 0x1F || (0x7F ≤ c.toNat && c.toNat ≤ 0x9F)

/-- Model of Go `strings.TrimSpace` on a rune sequence. -/
def trimSpaceChars (cs : List Char) : List Char :=
  ((cs.dropWhile goIsSpace).reverse.dropWhile goIsSpace).reverse

/-- Model of `Hasher.normalizeUnicode` (hash.go:57-68): drop control
characters except tab, newline and carriage return. -/
def normalizeUnicode (cs : List Char) : List Char :=
  cs.filter (fun c => !(goIsControl c && c ≠ '\t' && c ≠ '\n' && c ≠ '\r'))

/-- Model of `strings.ReplaceAll(input, "\r\n", "\n")` (left-to-right,
non-overlapping). -/
def replaceCRLF : List Char → List Char
  | '\r' :: '\n' :: rest => '\n' :: replaceCRLF rest
  | c :: rest => c :: replaceCRLF rest
  | [] => []

/-- Model of `strings.ReplaceAll(input, "\r", "\n")`. -/
def replaceCR (cs : List Char) : List Char :=
  cs.map (fun c => if c = '\r' then '\n' else c)

/-- Model of `Hasher.normalizeWhitespace` (hash.go:70-85): canonicalize
line endings, split into lines, trim each line, drop empty lines,
rejoin with a single space. -/
def normalizeWhitespace (cs : List Char) : List Char :=
  let cs2 := replaceCR (replaceCRLF cs)
  let lines := cs2.splitOn '\n'
  let normalizedLines := (lines.map trimSpaceChars).filter (fun l => l ≠ [])
  List.intercalate [' '] normalizedLines

/-- UTF-8 encoding of one scalar value (Go strings are UTF-8 bytes; Go
`len` and slicing operate on these bytes). -/
def charUtf8Bytes (c : Char) : List Nat :=
  let n := c.toNat
  if n < 0x80 then [n]
  else if n < 0x800 then [0xC0 + n / 64, 0x80 + n % 64]
  else if n < 0x10000 then [0xE0 + n / 4096, 0x80 + n / 64 % 64, 0x80 + n % 64]
  else [0xF0 + n / 262144, 0x80 + n / 4096 % 64, 0x80 + n / 64 % 64, 0x80 + n % 64]

/-- UTF-8 byte sequence of a rune sequence. -/
def utf8Bytes (cs : List Char) : List Nat :=
  cs.flatMap charUtf8Bytes

/-- Go `len(s)` for a string: its UTF-8 byte length. -/
def goLen (s : String) : Nat :=
  (utf8Bytes s.data).length

/-- Model of `Hasher.normalizeInput` (hash.go:40-55): TrimSpace, strip
control characters, whitespace normalization, then truncate to 10000
bytes (`input[:10000]` slices bytes, so the result is a byte string). -/
def normalizeInput (s : String) : List Nat :=
  let cs := trimSpaceChars s.data
  let cs2 := normalizeUnicode cs
  let cs3 := normalizeWhitespace cs2
  let bs := utf8Bytes cs3
  if bs.length > 10000 then bs.take 10000 else bs

/-! SHA-256 over byte lists, words as `Nat` reduced mod 2^32. -/

/-- Reduce to a 32-bit word. -/
def w32 (n : Nat) : Nat := n % 4294967296

/-- Rotate a 32-bit word right by `k`. -/
def rotr32 (k n : Nat) : Nat := (n >>> k) ||| w32 (n <<< (32 - k))

/-- Bitwise complement of a 32-bit word. -/
def bnot32 (n : Nat) : Nat := w32 n ^^^ 4294967295

/-- SHA-256 Ch function. -/
def chFn (x y z : Nat) : Nat := (x &&& y) ^^^ (bnot32 x &&& z)

/-- SHA-256 Maj function. -/
def majFn (x y z : Nat) : Nat := (x &&& y) ^^^ (x &&& z) ^^^ (y &&& z)

/-- SHA-256 capital sigma 0. -/
def bigS0 (x : Nat) : Nat := rotr32 2 x ^^^ rotr32 13 x ^^^ rotr32 22 x

/-- SHA-256 capital sigma 1. -/
def bigS1 (x : Nat) : Nat := rotr32 6 x ^^^ rotr32 11 x ^^^ rotr32 25 x

/-- SHA-256 small sigma 0. -/
def smallS0 (x : Nat) : Nat := rotr32 7 x ^^^ rotr32 18 x ^^^ (x >>> 3)

/-- SHA-256 small sigma 1. -/
def smallS1 (x : Nat) : Nat := rotr32 17 x ^^^ rotr32 19 x ^^^ (x >>> 10)

/-- SHA-256 round constants (FIPS 180-4, written in decimal). -/
def sha256K : List Nat :=
  [1116352408, 1899447441, 3049323471, 3921009573, 961987163,
   1508970993, 2453635748, 2870763221, 3624381080, 310598401,
   607225278, 1426881987, 1925078388, 2162078206, 2614888103,
   3248222580, 3835390401, 4022224774, 264347078, 604807628,
   770255983, 1249150122, 1555081692, 1996064986, 2554220882,
   2821834349, 2952996808, 3210313671, 3336571891, 3584528711,
   113926993, 338241895, 666307205, 773529912, 1294757372,
   1396182291, 1695183700, 1986661051, 2177026350, 2456956037,
   2730485921, 2820302411, 3259730800, 3345764771, 3516065817,
   3600352804, 4094571909, 275423344, 430227734, 506948616,
   659060556, 883997877, 958139571, 1322822218, 1537002063,
   1747873779, 1955562222, 2024104815, 2227730452, 2361852424,
   2428436474, 2756734187, 3204031479, 3329325298]

/-- SHA-256 working state: eight 32-bit words. -/
structure Hash8 where
  a : Nat
  b : Nat
  c : Nat
  d : Nat
  e : Nat
  f : Nat
  g : Nat
  hh : Nat

/-- Initial SHA-256 hash value (FIPS 180-4, written in decimal). -/
def initHash : Hash8 :=
  { a := 1779033703, b := 3144134277, c := 1013904242, d := 2773480762,
    e := 1359893119, f := 2600822924, g := 528734635, hh := 1541459225 }

/-- One SHA-256 compression round; `kw` is the round constant paired
with the scheduled message word. -/
def roundStep (s : Hash8) (kw : Nat × Nat) : Hash8 :=
  let t1 := w32 (s.hh + bigS1 s.e + chFn s.e s.f s.g + kw.1 + kw.2)
  let t2 := w32 (bigS0 s.a + majFn s.a s.b s.c)
  { a := w32 (t1 + t2), b := s.a, c := s.b, d := s.c,
    e := w32 (s.d + t1), f := s.e, g := s.f, hh := s.g }

/-- Pointwise mod-2^32 addition of hash states. -/
def addHash (x y : Hash8) : Hash8 :=
  { a := w32 (x.a + y.a), b := w32 (x.b + y.b), c := w32 (x.c + y.c),
    d := w32 (x.d + y.d), e := w32 (x.e + y.e), f := w32 (x.f + y.f),
    g := w32 (x.g + y.g), hh := w32 (x.hh + y.hh) }

/-- Append the next scheduled message word. -/
def stepW (w : List Nat) : List Nat :=
  let i := w.length
  w ++ [w32 (smallS1 (w.getD (i - 2) 0) + w.getD (i - 7) 0 +
             smallS0 (w.getD (i - 15) 0) + w.getD (i - 16) 0)]

/-- Iterate a function `n` times. -/
def iterFn (f : α → α) : Nat → α → α
  | 0, x => x
  | n + 1, x => iterFn f n (f x)

/-- Extend 16 message words to the 64-word schedule. -/
def scheduleW (ws : List Nat) : List Nat := iterFn stepW 48 ws

/-- Group bytes into big-endian 32-bit words. -/
def toWords : List Nat → List Nat
  | b0 :: b1 :: b2 :: b3 :: rest =>
    (b0 * 16777216 + b1 * 65536 + b2 * 256 + b3) :: toWords rest
  | _ => []

/-- Split a byte list into 64-byte blocks. -/
def toBlocks (bs : List Nat) : List (List Nat) :=
  match bs with
  | [] => []
  | b :: rest => ((b :: rest).take 64) :: toBlocks ((b :: rest).drop 64)
termination_by bs.length
decreasing_by simp [List.length_drop]; omega

/-- Big-endian byte expansion of `n` into `k` bytes. -/
def natToBytesBE (k n : Nat) : List Nat :=
  (List.range k).map (fun i => n >>> (8 * (k - 1 - i)) % 256)

/-- SHA-256 message padding. -/
def padBytes (msg : List Nat) : List Nat :=
  let l := msg.length
  let zeros := (120 - (l + 1) % 64) % 64
  msg ++ [0x80] ++ List.replicate zeros 0 ++ natToBytesBE 8 (l * 8)

/-- Big-endian bytes of one 32-bit word. -/
def wordBytes (x : Nat) : List Nat :=
  [x >>> 24 % 256, x >>> 16 % 256, x >>> 8 % 256, x % 256]

/-- Compress one 64-byte block into the hash state. -/
def compressBlock (h : Hash8) (block : List Nat) : Hash8 :=
  let ws := scheduleW (toWords block)
  addHash h ((sha256K.zip ws).foldl roundStep h)

/-- SHA-256 digest (32 bytes) of a byte list. -/
def sha256 (msg : List Nat) : List Nat :=
  let h := (toBlocks (padBytes msg)).foldl compressBlock initHash
  wordBytes h.a ++ wordBytes h.b ++ wordBytes h.c ++ wordBytes h.d ++
  wordBytes h.e ++ wordBytes h.f ++ wordBytes h.g ++ wordBytes h.hh

/-- The hex alphabet, as in Go `encoding/hex`'s table. -/
def hexTable : List Char := "0123456789abcdef".data

/-- Model of `hex.EncodeToString`. -/
def hexEncode (bs : List Nat) : String :=
  String.mk (bs.flatMap (fun b => [hexTable.getD (b >>> 4) '0', hexTable.getD (b &&& 15) '0']))

/-- Model of `Hasher.GenerateInputHash` (hash.go:23-38): hex-encoded
SHA-256 of the normalized input bytes, a `|` separator byte (0x7C, from
`fmt.Sprintf("%s|%s", ...)`), and the model name's bytes. -/
def GenerateInputHash (inputText modelName : String) : String :=
  hexEncode (sha256 (normalizeInput inputText ++ [0x7C] ++ utf8Bytes modelName.data))

/-- The pre-hash encoding at the string level: Go's
`data := fmt.Sprintf("%s|%s", normalizedInput, modelName)`. -/
def hashData (normalized modelName : String) : String :=
  normalized ++ "|" ++ modelName

end Hash

namespace Store

/-- Model of `database.CachedEmbedding` / the `embedding_cache` table
row (part_000, part_001:368-378).  Vectors are opaque payloads; their
float contents are modeled as `List Int` since the embedded code never
computes with the numbers.  Timestamps and ids are `Nat`. -/
structure CacheRow where
  id : Nat
  inputHash : String
  inputText : String
  embeddingVector : List Int
  modelName : String
  inputLength : Nat
  createdAt : Nat
  updatedAt : Nat
  usedAt : Nat
  deriving DecidableEq, Repr

/-- Model of `database.GetCachedEmbedding` (part_001:472-506): point
lookup by fingerprint (the table's hashes are unique, so first match is
the match).  Transport failures of the backing store are external and
not modeled. -/
def GetCachedEmbedding (tbl : List CacheRow) (inputHash : String) : Option CacheRow :=
  tbl.find? (fun r => r.inputHash == inputHash)

/-- Model of `database.StoreEmbedding` (part_001:574-600): the SQL
`INSERT ... ON CONFLICT (input_hash) DO UPDATE SET embedding_vector,
updated_at = NOW(), used_at = NOW()`.  `newId` models the
uuid generated on insert and `now` models `NOW()`. -/
def StoreEmbedding (tbl : List CacheRow) (newId now : Nat)
    (inputHash inputText modelName : String) (vec : List Int) : List CacheRow :=
  if tbl.any (fun r => r.inputHash == inputHash) then
    tbl.map (fun r =>
      if r.inputHash == inputHash then
        { r with embeddingVector := vec, updatedAt := now, usedAt := now }
      else r)
  else
    tbl ++ [{ id := newId, inputHash := inputHash, inputText := inputText,
              embeddingVector := vec, modelName := modelName,
              inputLength := Hash.goLen inputText,
              createdAt := now, updatedAt := now, usedAt := now }]

end Store

namespace Cache

/-- A JSON value inside a batch array: a string or anything else
(number, bool, object, ...), as produced by binding `[]interface\x7b\x7d`. -/
inductive JsonItem where
  | str (s : String)
  | nonString
  deriving DecidableEq, Repr

/-- The dynamic type of `EmbeddingRequest.Input` (an `interface\x7b\x7d`
bound from JSON): absent/nil, a string, a `[]string`, a JSON array, or
any other JSON value. -/
inductive InputValue where
  | null
  | str (s : String)
  | strArray (xs : List String)
  | anyArray (xs : List JsonItem)
  | other
  deriving DecidableEq, Repr

/-- Model of `cache.EmbeddingRequest` (part_004:24-27). -/
structure EmbeddingRequest where
  input : InputValue
  model : String := ""
  deriving DecidableEq, Repr

/-- Model of `cache.EmbeddingResponse` (part_004:29-39); unset fields
default to Go zero values. -/
structure EmbeddingResponse where
  embedding : List Int := []
  embeddings : List (List Int) := []
  model : String := ""
  cached : Bool := false
  cachedItems : List Bool := []
  promptTokens : Nat := 0
  totalTokens : Nat := 0
  deriving DecidableEq, Repr

/-- Model of `database.BatchItem` (part_001:357-362). -/
structure BatchItem where
  input : String
  hash : String
  index : Nat
  cached : Option Store.CacheRow := none
  deriving DecidableEq, Repr

/-- Model of a successful `openai.EmbeddingResponse` as consumed by the
orchestrator (part_001:170-178). -/
structure ProviderSuccess where
  embeddings : List (List Int) := []
  model : String := ""
  promptTokens : Nat := 0
  totalTokens : Nat := 0
  deriving DecidableEq, Repr

/-- Provider-side failures (transport errors and the response-shape
failures checked by `CreateBatchEmbeddings`). -/
inductive ProviderErr where
  | transport (code : Nat)
  | noData
  | emptyVector (i : Nat)
  | emptyInputArr
  | batchTooLarge
  deriving DecidableEq, Repr

/-- Errors of `Cache.normalizeInput` (part_004:87-106). -/
inductive NormErr where
  | itemNotString (i : Nat)
  | invalidType
  deriving DecidableEq, Repr

/-- Errors of `Cache.ValidateRequest` (part_004:397-434), one
constructor per distinct `fmt.Errorf` message. -/
inductive ValErr where
  | inputRequired
  | badInput (e : NormErr)
  | emptyInput
  | batchTooLarge
  | itemTooLong (i : Nat)
  | inputTooLong
  deriving DecidableEq, Repr

/-- Errors of the processing paths (part_004:108-303). -/
inductive ProcErr where
  | invalidInput (e : NormErr)
  | emptyInputText
  | emptyBatch
  | batchTooLarge
  | providerErr (e : ProviderErr)
  | noEmbeddingData
  deriving DecidableEq, Repr

/-- The `cache.Cache` struct's injected collaborators (part_004:16-22):
the hasher, the configured default model (`c.ai.GetModel()`), and the
provider call (`c.ai.CreateBatchEmbeddings`, which `CreateEmbedding`
also delegates to).  The usage tracker is fire-and-forget and modeled
separately in `Meep.Tracker`. -/
structure CacheDeps where
  hashFn : String → String → String
  dfltModel : String
  provider : List String → Except ProviderErr ProviderSuccess

/-- Model of `Cache.isBatchInput` (part_004:74-85). -/
def isBatchInput : InputValue → Bool
  | .str _ => false
  | .anyArray _ => true
  | .strArray _ => true
  | _ => false

/-- The `[]interface\x7b\x7d` arm of `Cache.normalizeInput`: every item
must be a string; the error names the first offending index. -/
def itemsToStrings : List JsonItem → Nat → Except NormErr (List String)
  | [], _ => .ok []
  | .str s :: rest, i =>
    match itemsToStrings rest (i + 1) with
    | .error e => .error e
    | .ok tail => .ok (s :: tail)
  | .nonString :: _, i => .error (.itemNotString i)

/-- Model of `Cache.normalizeInput` (part_004:87-106). -/
def normalizeInput : InputValue → Except NormErr (List String)
  | .str s => .ok [s]
  | .anyArray xs => itemsToStrings xs 0
  | .strArray xs => .ok xs
  | _ => .error .invalidType

/-- First index whose Go byte length exceeds 10000, as scanned by the
validation loop. -/
def tooLongIdx (inputs : List String) : Option Nat :=
  inputs.findIdx? (fun s => Hash.goLen s > 10000)

/-- Model of `Cache.ValidateRequest` (part_004:397-434).  Go `len` on a
string counts UTF-8 bytes, hence `Hash.goLen`.  The model-mismatch
branch at part_004:427-431 only logs and is omitted. -/
def ValidateRequest (req : EmbeddingRequest) : Except ValErr Unit :=
  if req.input = .null then .error .inputRequired
  else
    match normalizeInput req.input with
    | .error e => .error (.badInput e)
    | .ok inputs =>
      if inputs.length = 0 then .error .emptyInput
      else if isBatchInput req.input then
        if inputs.length > 1000 then .error .batchTooLarge
        else
          match tooLongIdx inputs with
          | some i => .error (.itemTooLong i)
          | none => .ok ()
      else if Hash.goLen (inputs.headD "") > 10000 then .error .inputTooLong
      else .ok ()

/-- Model of `Cache.prepareBatchItems` (part_004:305-316), with the
running index made explicit. -/
def prepareAux (hashFn : String → String → String) (modelName : String) :
    List String → Nat → List BatchItem
  | [], _ => []
  | s :: rest, i =>
    { input := s, hash := hashFn s modelName, index := i } :: prepareAux hashFn modelName rest (i + 1)

/-- Model of `Cache.prepareBatchItems` (part_004:305-316). -/
def prepareBatchItems (hashFn : String → String → String) (inputs : List String)
    (modelName : String) : List BatchItem :=
  prepareAux hashFn modelName inputs 0

/-- The `hashToItem` Go map of `GetBatchCachedEmbeddings`
(part_001:513-519): built by forward insertion, so the last item with a
given hash wins. -/
def hashToItem (items : List BatchItem) (h : String) : Option BatchItem :=
  items.foldl (fun acc item => if item.hash == h then some item else acc) none

/-- Model of `database.GetBatchCachedEmbeddings` (part_001:508-572):
the query returns one row per distinct fingerprint found, and each row
is attached to `hashToItem[row.InputHash]` — the last item with that
hash.  Items carry distinct indexes, so structural equality with the
map winner models Go's pointer identity. -/
def GetBatchCachedEmbeddings (tbl : List Store.CacheRow) (items : List BatchItem) :
    List BatchItem :=
  items.map (fun item =>
    match Store.GetCachedEmbedding tbl item.hash with
    | some row =>
      if hashToItem items item.hash = some item then { item with cached := some row } else item
    | none => item)

/-- Model of `Cache.getUncachedItems` (part_004:318-326). -/
def getUncachedItems (items : List BatchItem) : List BatchItem :=
  items.filter (fun item => item.cached.isNone)

/-- The texts sent to the provider for the miss subset
(part_004:328-335). -/
def batchProviderInputs (uncached : List BatchItem) : List String :=
  uncached.map (fun item => item.input)

/-- Model of `Cache.storeBatchEmbeddings` (part_004:337-349): one
`StoreEmbedding` per uncached item whose positional vector exists;
write failures are logged and swallowed, matching the always-success
store model. -/
def storeBatchGo (now idBase : Nat) (modelName : String) (embs : List (List Int)) :
    List Store.CacheRow → Nat → List BatchItem → List Store.CacheRow
  | tbl, _, [] => tbl
  | tbl, i, item :: rest =>
    let tbl2 :=
      if i < embs.length then
        Store.StoreEmbedding tbl (idBase + i) now item.hash item.input modelName (embs.getD i [])
      else tbl
    storeBatchGo now idBase modelName embs tbl2 (i + 1) rest

/-- Model of `Cache.storeBatchEmbeddings` (part_004:337-349). -/
def storeBatchEmbeddings (now idBase : Nat) (modelName : String) (tbl : List Store.CacheRow)
    (uncached : List BatchItem) (embs : List (List Int)) : List Store.CacheRow :=
  storeBatchGo now idBase modelName embs tbl 0 uncached

/-- Model of `cache.BatchResult` (part_004:42-46). -/
structure BatchResult where
  embedding : List Int
  cached : Bool
  index : Nat
  deriving DecidableEq, Repr

/-- First loop of `assembleBatchResults` (part_004:354-362): place each
cache hit at its original index.  `List.replicate originalSize none`
models the freshly made slice of nil pointers. -/
def fillHits (items : List BatchItem) (r : List (Option BatchResult)) :
    List (Option BatchResult) :=
  items.foldl (fun r item =>
    match item.cached with
    | some row =>
      r.set item.index (some { embedding := row.embeddingVector, cached := true, index := item.index })
    | none => r) r

/-- Second loop of `assembleBatchResults` (part_004:364-372): place the
provider's k-th vector at the k-th uncached item's original index,
guarded by `i < len(aiResponse.Embeddings)`. -/
def fillMissGo (embs : List (List Int)) :
    List (Option BatchResult) → Nat → List BatchItem → List (Option BatchResult)
  | r, _, [] => r
  | r, i, item :: rest =>
    let r2 :=
      if i < embs.length then
        r.set item.index (some { embedding := embs.getD i [], cached := false, index := item.index })
      else r
    fillMissGo embs r2 (i + 1) rest

/-- Model of `Cache.assembleBatchResults` (part_004:351-375). -/
def assembleBatchResults (items uncached : List BatchItem) (embs : List (List Int))
    (originalSize : Nat) : List (Option BatchResult) :=
  fillMissGo embs (fillHits items (List.replicate originalSize none)) 0 uncached

/-- Model of `Cache.extractEmbeddings` (part_004:377-385); a nil result
slot yields the zero-value nil slice. -/
def extractEmbeddings (results : List (Option BatchResult)) : List (List Int) :=
  results.map (fun r =>
    match r with
    | some br => br.embedding
    | none => [])

/-- Model of `Cache.extractCachedFlags` (part_004:387-395). -/
def extractCachedFlags (results : List (Option BatchResult)) : List Bool :=
  results.map (fun r =>
    match r with
    | some br => br.cached
    | none => false)

/-- Model of `Cache.processBatchRequest` (part_004:221-303).  The final
response literal sets only `Embeddings`, `Model` and `CachedItems`;
`TokenUsage` is left at its zero value.  `now`/`idBase` supply the
store's timestamps and generated ids; hit usage tracking is
fire-and-forget and modeled separately. -/
def processBatchRequest (c : CacheDeps) (tbl : List Store.CacheRow) (now idBase : Nat)
    (req : EmbeddingRequest) : Except ProcErr EmbeddingResponse × List Store.CacheRow :=
  match normalizeInput req.input with
  | .error e => (.error (.invalidInput e), tbl)
  | .ok inputs =>
    if inputs.length = 0 then (.error .emptyBatch, tbl)
    else if inputs.length > 1000 then (.error .batchTooLarge, tbl)
    else
      let modelName := if req.model = "" then c.dfltModel else req.model
      let batchItems := GetBatchCachedEmbeddings tbl (prepareBatchItems c.hashFn inputs modelName)
      let uncachedItems := getUncachedItems batchItems
      match (if uncachedItems.isEmpty then Except.ok ([], tbl)
             else
               match c.provider (batchProviderInputs uncachedItems) with
               | .error e => .error e
               | .ok r =>
                 .ok (r.embeddings,
                      storeBatchEmbeddings now idBase modelName tbl uncachedItems r.embeddings)) with
      | .error e => (.error (.providerErr e), tbl)
      | .ok (aiEmbs, tbl2) =>
        let results := assembleBatchResults batchItems uncachedItems aiEmbs inputs.length
        (.ok { embeddings := extractEmbeddings results, model := modelName,
               cachedItems := extractCachedFlags results }, tbl2)

/-- Model of `Cache.processSingleRequest` (part_004:108-198).
`CreateEmbedding` delegates to the batch provider call with a
one-element list and takes the first returned vector; a store write
failure would still return the computed response, matching the
always-success store model. -/
def processSingleRequest (c : CacheDeps) (tbl : List Store.CacheRow) (now idBase : Nat)
    (req : EmbeddingRequest) : Except ProcErr EmbeddingResponse × List Store.CacheRow :=
  match normalizeInput req.input with
  | .error e => (.error (.invalidInput e), tbl)
  | .ok inputs =>
    let input := inputs.headD ""
    if input = "" then (.error .emptyInputText, tbl)
    else
      let modelName := if req.model = "" then c.dfltModel else req.model
      let inputHash := c.hashFn input modelName
      match Store.GetCachedEmbedding tbl inputHash with
      | some cached =>
        (.ok { embedding := cached.embeddingVector, model := cached.modelName, cached := true }, tbl)
      | none =>
        match c.provider [input] with
        | .error e => (.error (.providerErr e), tbl)
        | .ok r =>
          match r.embeddings with
          | [] => (.error .noEmbeddingData, tbl)
          | v :: _ =>
            (.ok { embedding := v, model := r.model, cached := false,
                   promptTokens := r.promptTokens, totalTokens := r.totalTokens },
             Store.StoreEmbedding tbl idBase now inputHash input modelName v)

/-- Model of `Cache.GetEmbedding` (part_004:64-72). -/
def GetEmbedding (c : CacheDeps) (tbl : List Store.CacheRow) (now idBase : Nat)
    (req : EmbeddingRequest) : Except ProcErr EmbeddingResponse × List Store.CacheRow :=
  if isBatchInput req.input then processBatchRequest c tbl now idBase req
  else processSingleRequest c tbl now idBase req

/-- Handler-level errors: validation rejections vs processing errors,
as distinguished by `server.handleEmbed` (part_002:90-146). -/
inductive HandlerErr where
  | validation (e : ValErr)
  | processing (e : ProcErr)
  deriving DecidableEq, Repr

/-- Model of `server.handleEmbed` (part_002:90-146): `ValidateRequest`
runs first and a validation failure returns before `GetEmbedding` is
ever invoked. -/
def handleEmbed (c : CacheDeps) (tbl : List Store.CacheRow) (now idBase : Nat)
    (req : EmbeddingRequest) : Except HandlerErr EmbeddingResponse × List Store.CacheRow :=
  match ValidateRequest req with
  | .error e => (.error (.validation e), tbl)
  | .ok _ =>
    match GetEmbedding c tbl now idBase req with
    | (.error e, t) => (.error (.processing e), t)
    | (.ok r, t) => (.ok r, t)

/-- The batch item built for position `j` of the input list (the view
of `prepareBatchItems` at one index; `cached` starts nil). -/
def itemAt (hashFn : String → String → String) (modelName : String) (inputs : List String)
    (j : Nat) : BatchItem :=
  { input := inputs.getD j "", hash := hashFn (inputs.getD j "") modelName, index := j }

/-- Attach the store's row for an item's fingerprint, if any — the
per-item effect of the batch lookup on an item that wins the
`hashToItem` map. -/
def attachOne (tbl : List Store.CacheRow) (item : BatchItem) : BatchItem :=
  match Store.GetCachedEmbedding tbl item.hash with
  | some row => { item with cached := some row }
  | none => item

/-- The number of cache-missing fingerprints among the first `i`
positions: the positional rank a missing position `i` has within the
provider call. -/
def missRank (tbl : List Store.CacheRow) (hashFn : String → String → String)
    (inputs : List String) (modelName : String) (i : Nat) : Nat :=
  ((List.range i).filter (fun j =>
    (Store.GetCachedEmbedding tbl (hashFn (inputs.getD j "") modelName)).isNone)).length

end Cache

namespace OpenAI

/-- The raw result of one `c.client.Embeddings.New` call: a transport
error or a response carrying `Data` vectors, the model and usage. -/
structure APIResponse where
  data : List (List Int)
  model : String
  promptTokens : Nat
  totalTokens : Nat
  deriving DecidableEq, Repr

/-- Outcome of the remote call on a given attempt number. -/
inductive AttemptResult where
  | fail (code : Nat)
  | respond (r : APIResponse)

/-- The inner loop over `response.Data` (part_001:285-292): an empty
vector at index `i` sets `lastErr` and skips the assignment (the Go
`continue` continues this inner loop), leaving the nil zero value in
that slot; non-empty vectors are copied. -/
def scanVectorsGo : List (List Int) → Nat → Option Cache.ProviderErr →
    List (List Int) × Option Cache.ProviderErr
  | [], _, lastErr => ([], lastErr)
  | v :: rest, i, lastErr =>
    if v = [] then
      let p := scanVectorsGo rest (i + 1) (some (.emptyVector i))
      ([] :: p.1, p.2)
    else
      let p := scanVectorsGo rest (i + 1) lastErr
      (v :: p.1, p.2)

/-- The retry loop of `CreateBatchEmbeddings` (part_001:251-316),
faithful to the source: `lastErr` is declared once outside the loop and
never reset, so the success return at part_001:294-296 is taken only
when `lastErr` is still nil — any failure on an earlier attempt makes
every later attempt take the `continue` branch.  `fuel` counts the
remaining iterations of `attempt ≤ maxRetries`; the backoff sleep has
no observable effect here. -/
def attemptLoop (outcome : Nat → AttemptResult) :
    Nat → Nat → Option Cache.ProviderErr →
    Except (Option Cache.ProviderErr) Cache.ProviderSuccess
  | _, 0, lastErr => .error lastErr
  | attempt, fuel + 1, lastErr =>
    match outcome attempt with
    | .fail code => attemptLoop outcome (attempt + 1) fuel (some (.transport code))
    | .respond r =>
      if r.data.length = 0 then
        attemptLoop outcome (attempt + 1) fuel (some .noData)
      else
        let p := scanVectorsGo r.data 0 lastErr
        match p.2 with
        | some e => attemptLoop outcome (attempt + 1) fuel (some e)
        | none =>
          .ok { embeddings := p.1, model := r.model,
                promptTokens := if r.promptTokens > 0 then r.promptTokens else 0,
                totalTokens := if r.promptTokens > 0 then r.totalTokens else 0 }

/-- Errors returned by `CreateBatchEmbeddings` (part_001:237-319):
caller errors for empty/oversized input, or retry exhaustion wrapping
the attempt count and the last recorded failure. -/
inductive BatchErr where
  | emptyInput
  | tooLarge
  | exhausted (attempts : Nat) (last : Option Cache.ProviderErr)
  deriving DecidableEq

/-- Model of `Client.CreateBatchEmbeddings` (part_001:237-319) with the
remote call abstracted as `outcome`. -/
def CreateBatchEmbeddings (outcome : Nat → AttemptResult) (maxRetries : Nat)
    (inputs : List String) : Except BatchErr Cache.ProviderSuccess :=
  if inputs.length = 0 then .error .emptyInput
  else if inputs.length > 1000 then .error .tooLarge
  else
    match attemptLoop outcome 0 (maxRetries + 1) none with
    | .error le => .error (.exhausted (maxRetries + 1) le)
    | .ok r => .ok r

end OpenAI

namespace Tracker

/-- State of the usage tracker (part_003): the bounded channel contents
with its closed flags, the mutex-guarded buffer, the batches handed to
`markUsed` so far, whether each background goroutine is still running,
and a ghost log `enqueued` of every id successfully sent into the
channel by `TrackUsage`. -/
structure TrackerState where
  chan : List Nat := []
  chanClosed : Bool := false
  stopClosed : Bool := false
  buffer : List Nat := []
  flushed : List (List Nat) := []
  ingestRunning : Bool := true
  timerRunning : Bool := true
  enqueued : List Nat := []
  deriving DecidableEq, Repr

/-- The channel capacity (part_003:30). -/
def chanCap : Nat := 1000

/-- Model of `flushBuffer` (part_003:119-139): swap out the buffer and
record one `markUsed` batch; a nil buffer is a no-op. -/
def flushBuffer (s : TrackerState) : TrackerState :=
  if s.buffer = [] then s
  else { s with flushed := s.flushed ++ [s.buffer], buffer := [] }

/-- Model of `TrackUsage` (part_003:62-69): non-blocking send, dropped
when the channel is full; after `Stop` closes the channel no further
send succeeds (a send on a closed channel is not a successful
enqueue). -/
def trackUsage (id : Nat) (s : TrackerState) : TrackerState :=
  if !s.chanClosed && s.chan.length < chanCap then
    { s with chan := s.chan ++ [id], enqueued := s.enqueued ++ [id] }
  else s

/-- Scheduler actions: one step of either goroutine, or a producer
calling `TrackUsage`.  Each maps to one `select` arm of
`processUsageUpdates` (part_003:71-97) or `flushPeriodically`
(part_003:99-117); `ingestStop` is the race in which the ingest task
takes the `stopChan` arm while ids still sit in the channel. -/
inductive TAct where
  | track (id : Nat)
  | ingestRecv
  | ingestChanDrained
  | ingestStop
  | timerTick
  | timerStop
  deriving DecidableEq, Repr

/-- One interleaved step; actions whose `select` arm is not ready are
no-ops. -/
def tstep (batchSize : Nat) (s : TrackerState) : TAct → TrackerState
  | .track id => trackUsage id s
  | .ingestRecv =>
    match s.chan with
    | [] => s
    | id :: rest =>
      if s.ingestRunning then
        let s2 := { s with chan := rest, buffer := s.buffer ++ [id] }
        if s2.buffer.length ≥ batchSize then flushBuffer s2 else s2
      else s
  | .ingestChanDrained =>
    if s.ingestRunning && s.chanClosed && s.chan.isEmpty then
      { s with ingestRunning := false }
    else s
  | .ingestStop =>
    if s.ingestRunning && s.stopClosed then { s with ingestRunning := false } else s
  | .timerTick => if s.timerRunning then flushBuffer s else s
  | .timerStop =>
    if s.timerRunning && s.stopClosed then { s with timerRunning := false } else s

/-- Run a scheduler-chosen action list. -/
def trun (batchSize : Nat) (s : TrackerState) (acts : List TAct) : TrackerState :=
  acts.foldl (tstep batchSize) s

/-- The initial tracker state built by `New` (part_003:26-36). -/
def initState : TrackerState := {}

/-- Model of `Stop` (part_003:49-60): close `stopChan` and `usageChan`,
let the goroutines run to completion under some interleaving `sched`
(`wg.Wait()` is the hypothesis that both have stopped afterwards), then
one final `flushBuffer`. -/
def trackerStop (batchSize : Nat) (s : TrackerState) (sched : List TAct) : TrackerState :=
  flushBuffer (trun batchSize { s with stopClosed := true, chanClosed := true } sched)

/-- An id is accounted for by the tracker state: still in the channel,
in the buffer, or already part of some markUsed batch. -/
def accounted (s : TrackerState) (id : Nat) : Prop :=
  id ∈ s.chan ∨ id ∈ s.buffer ∨ ∃ b ∈ s.flushed, id ∈ b

/-- Conservation invariant: every successfully enqueued id is
accounted for. -/
def conserved (s : TrackerState) : Prop :=
  ∀ id ∈ s.enqueued, accounted s id

end Tracker

namespace Fix

/-- A concrete injective hasher for instantiating the orchestrator
theorems (the orchestrator takes the hasher as an injected dependency,
mirroring the `Cache` struct's `hasher` field). -/
def hf : String → String → String := fun t m => t ++ "#" ++ m

/-- A concrete cached row for the text "a" under model "m". -/
def row1 : Store.CacheRow :=
  { id := 1, inputHash := hf "a" "m", inputText := "a", embeddingVector := [7],
    modelName := "m", inputLength := 1, createdAt := 0, updatedAt := 0, usedAt := 0 }

/-- A store holding exactly the row for "a". -/
def tbl : List Store.CacheRow := [row1]

/-- A concrete provider returning the vector [9] for every submitted
text, reporting 5 prompt tokens and 6 total tokens. -/
def prov : List String → Except Cache.ProviderErr Cache.ProviderSuccess := fun xs =>
  .ok { embeddings := xs.map (fun _ => [9]), model := "m", promptTokens := 5, totalTokens := 6 }

/-- Concrete orchestrator dependencies. -/
def deps : Cache.CacheDeps := { hashFn := hf, dfltModel := "m", provider := prov }

/-- A provider behavior that fails with a transport error on the first
attempt and then returns a well-formed one-vector response on every
later attempt. -/
def failThenOk : Nat → OpenAI.AttemptResult := fun attempt =>
  if attempt = 0 then .fail 7
  else .respond { data := [[1]], model := "m", promptTokens := 1, totalTokens := 1 }

end Fix

namespace Hash

lemma sha256_length (msg : List Nat) : (sha256 msg).length = 32 := by
  simp [sha256, wordBytes]

lemma hexPair_length (bs : List Nat) :
    (bs.flatMap (fun b => [hexTable.getD (b >>> 4) '0', hexTable.getD (b &&& 15) '0'])).length =
      2 * bs.length := by
  induction bs with
  | nil => simp
  | cons b bs ih =>
    simp only [List.flatMap_cons, List.length_append, List.length_cons, List.length_nil, ih]
    omega

lemma hexEncode_length (bs : List Nat) : (hexEncode bs).length = 2 * bs.length := by
  show (bs.flatMap
    (fun b => [hexTable.getD (b >>> 4) '0', hexTable.getD (b &&& 15) '0'])).length = 2 * bs.length
  exact hexPair_length bs

lemma hexTable_getD_mem (n : Nat) : hexTable.getD n '0' ∈ hexTable := by
  by_cases h : n < 16
  · interval_cases n <;> decide
  · have hnone : hexTable[n]? = none := by
      apply List.getElem?_eq_none
      show hexTable.length ≤ n
      have h16 : hexTable.length = 16 := by decide
      omega
    simp [List.getD, hnone]
    decide

lemma hexEncode_chars (bs : List Nat) : ∀ c ∈ (hexEncode bs).data, c ∈ hexTable := by
  intro c hc
  have hc2 : c ∈ bs.flatMap
      (fun b => [hexTable.getD (b >>> 4) '0', hexTable.getD (b &&& 15) '0']) := hc
  rcases List.mem_flatMap.mp hc2 with ⟨b, _, hcb⟩
  simp only [List.mem_cons, List.mem_singleton] at hcb
  rcases hcb with h | h | h
  · exact h ▸ hexTable_getD_mem _
  · exact h ▸ hexTable_getD_mem _
  · cases h

lemma generateInputHash_length (t m : String) : (GenerateInputHash t m).length = 64 := by
  simp [GenerateInputHash, hexEncode_length, sha256_length]

lemma utf8Bytes_replicate (n : Nat) (c : Char) :
    (utf8Bytes (List.replicate n c)).length = n * (charUtf8Bytes c).length := by
  induction n with
  | zero => simp [utf8Bytes]
  | succ k ih =>
    show ((List.replicate (k + 1) c).flatMap charUtf8Bytes).length = _
    rw [List.replicate_succ, List.flatMap_cons, List.length_append]
    have ih2 : ((List.replicate k c).flatMap charUtf8Bytes).length =
        k * (charUtf8Bytes c).length := ih
    rw [ih2]
    ring

/-- Splitting at a separator absent from both suffixes is unambiguous. -/
lemma append_sep_inj {α : Type} (c : α) :
    ∀ (a1 a2 b1 b2 : List α), c ∉ b1 → c ∉ b2 →
      a1 ++ c :: b1 = a2 ++ c :: b2 → a1 = a2 ∧ b1 = b2 := by
  intro a1
  induction a1 with
  | nil =>
    intro a2 b1 b2 hb1 hb2 heq
    cases a2 with
    | nil => simpa using heq
    | cons y a2 =>
      simp only [List.nil_append, List.cons_append, List.cons.injEq] at heq
      exact absurd (heq.2 ▸ List.mem_append_right a2 (List.mem_cons_self c b2)) hb1
  | cons x a1 ih =>
    intro a2 b1 b2 hb1 hb2 heq
    cases a2 with
    | nil =>
      simp only [List.cons_append, List.nil_append, List.cons.injEq] at heq
      exact absurd (heq.2.symm ▸ List.mem_append_right a1 (List.mem_cons_self c b1)) hb2
    | cons y a2 =>
      simp only [List.cons_append, List.cons.injEq] at heq
      obtain ⟨h1, h2⟩ := ih a2 b1 b2 hb1 hb2 heq.2
      exact ⟨by rw [heq.1, h1], h2⟩

end Hash

/-- C5: the fingerprint is a pure deterministic function producing a
64-hex-character output, any two inputs that agree after the
normalization pipeline (trim, control-character strip, line-ending
canonicalization, per-line trim, empty-line drop, space rejoin, 10000
truncation) get equal fingerprints under the same model, and in
particular the fingerprints of " a \n b " and "a b" agree for every
model. -/
theorem c5_fingerprint_determinism (t1 t2 m : String) :
    Hash.GenerateInputHash t1 m = Hash.GenerateInputHash t1 m ∧
    (Hash.GenerateInputHash t1 m).length = 64 ∧
    (∀ c ∈ (Hash.GenerateInputHash t1 m).data, c ∈ Hash.hexTable) ∧
    (Hash.normalizeInput t1 = Hash.normalizeInput t2 →
      Hash.GenerateInputHash t1 m = Hash.GenerateInputHash t2 m) ∧
    Hash.GenerateInputHash " a \n b " m = Hash.GenerateInputHash "a b" m := by
  refine ⟨rfl, Hash.generateInputHash_length t1 m, Hash.hexEncode_chars _, ?_, ?_⟩
  · intro hnorm
    simp [Hash.GenerateInputHash, hnorm]
  · have hnorm : Hash.normalizeInput " a \n b " = Hash.normalizeInput "a b" := by decide
    simp [Hash.GenerateInputHash, hnorm]

/-- C5 witness: the theorem applied at concrete strings, with the inner
normalization-equality hypothesis discharged by evaluation. -/
theorem c5_fingerprint_determinism_witness :
    Hash.GenerateInputHash " a \n b " "text-embedding-3-small" =
      Hash.GenerateInputHash "a b" "text-embedding-3-small" :=
  (c5_fingerprint_determinism " a \n b " "a b" "text-embedding-3-small").2.2.2.1 (by decide)

/-- C6 counterexample: the pre-hash encoding is not injective as claimed.
The pairs (normalized text "a|b", model "m") and (normalized text "a",
model "b|m") are distinct yet produce the same concatenated string, and
the resulting fingerprints collide; moreover the separator byte 0x7C
does occur in normalized text (both "a|b" and "a" are fixed points of
the normalization pipeline). -/
theorem c6_counterexample :
    Hash.hashData "a|b" "m" = Hash.hashData "a" "b|m" ∧
    ¬("a|b" = "a" ∧ "m" = "b|m") ∧
    Hash.GenerateInputHash "a|b" "m" = Hash.GenerateInputHash "a" "b|m" ∧
    (0x7C : Nat) ∈ Hash.normalizeInput "a|b" ∧
    Hash.normalizeInput "a|b" = Hash.utf8Bytes "a|b".data := by
  refine ⟨by decide, by decide, ?_, by decide, by decide⟩
  have h : Hash.normalizeInput "a|b" ++ [0x7C] ++ Hash.utf8Bytes "m".data =
      Hash.normalizeInput "a" ++ [0x7C] ++ Hash.utf8Bytes "b|m".data := by decide
  simp [Hash.GenerateInputHash, h]

/-- C6 amended: the encoding `normalized ++ "|" ++ model` is injective
provided the model names do not contain the separator character; the
separator can occur in normalized text, so the restriction on models is
what makes the split unambiguous (the model is everything after the
last separator). -/
theorem c6_separator_unambiguity (n1 m1 n2 m2 : String)
    (h1 : '|' ∉ m1.data) (h2 : '|' ∉ m2.data)
    (heq : Hash.hashData n1 m1 = Hash.hashData n2 m2) :
    n1 = n2 ∧ m1 = m2 := by
  have hdata : n1.data ++ '|' :: m1.data = n2.data ++ '|' :: m2.data := by
    have := congrArg String.data heq
    simpa [Hash.hashData, String.data_append] using this
  obtain ⟨ha, hb⟩ := Hash.append_sep_inj '|' n1.data n2.data m1.data m2.data h1 h2 hdata
  exact ⟨String.ext ha, String.ext hb⟩

/-- C6 witness: the amended injectivity applied at concrete arguments
with both separator-freedom hypotheses discharged by evaluation. -/
theorem c6_separator_unambiguity_witness :
    ("texta" : String) = "texta" ∧ ("model-1" : String) = "model-1" :=
  c6_separator_unambiguity "texta" "model-1" "texta" "model-1"
    (by decide) (by decide) rfl

namespace Cache

lemma prepareAux_mem_of_mem (hashFn : String → String → String) (m : String)
    (inputs : List String) (s : String) (hs : s ∈ inputs) :
    ∀ i, ∃ item ∈ prepareAux hashFn m inputs i,
      item.input = s ∧ item.hash = hashFn s m ∧ item.cached = none := by
  induction inputs with
  | nil => cases hs
  | cons a rest ih =>
    intro i
    rcases List.mem_cons.mp hs with rfl | hs2
    · exact ⟨{ input := s, hash := hashFn s m, index := i },
        List.mem_cons_self _ _, rfl, rfl, rfl⟩
    · obtain ⟨item, hmem, hfields⟩ := ih hs2 (i + 1)
      exact ⟨item, List.mem_cons_of_mem _ hmem, hfields⟩

lemma attach_mem_of_miss (tbl : List Store.CacheRow) (items : List BatchItem)
    (item : BatchItem) (hmem : item ∈ items)
    (hnone : Store.GetCachedEmbedding tbl item.hash = none) :
    item ∈ GetBatchCachedEmbeddings tbl items := by
  unfold GetBatchCachedEmbeddings
  refine List.mem_map.mpr ⟨item, hmem, ?_⟩
  simp [hnone]

lemma uncached_input_mem (items : List BatchItem) (item : BatchItem)
    (hmem : item ∈ items) (hnone : item.cached = none) :
    item.input ∈ batchProviderInputs (getUncachedItems items) := by
  apply List.mem_map_of_mem
  exact List.mem_filter.mpr ⟨hmem, by simp [hnone]⟩

end Cache

/-- C10: the empty-string asymmetry between the two paths.  A request
whose input is the single empty string passes validation but is
rejected by the single path before any cache lookup or provider call —
for every store and provider the handler returns the empty-input
processing error with the store unchanged.  A batch request containing
the empty string passes validation whenever the collection is
non-empty, within the 1000-item cap, and every item is within the
10000-byte limit; and if the empty string's fingerprint is not in the
store, the empty string is forwarded to the provider as part of the
miss subset. -/
theorem c10_empty_string_asymmetry :
    (∀ (c : Cache.CacheDeps) (tbl : List Store.CacheRow) (now idBase : Nat) (m : String),
      Cache.handleEmbed c tbl now idBase { input := .str "", model := m } =
        (.error (.processing .emptyInputText), tbl)) ∧
    (∀ (inputs : List String) (m : String),
      inputs ≠ [] → inputs.length ≤ 1000 → (∀ s ∈ inputs, Hash.goLen s ≤ 10000) →
      Cache.ValidateRequest { input := .strArray inputs, model := m } = .ok ()) ∧
    (∀ (c : Cache.CacheDeps) (tbl : List Store.CacheRow) (inputs : List String)
        (modelName : String), "" ∈ inputs →
      Store.GetCachedEmbedding tbl (c.hashFn "" modelName) = none →
      "" ∈ Cache.batchProviderInputs (Cache.getUncachedItems
        (Cache.GetBatchCachedEmbeddings tbl
          (Cache.prepareBatchItems c.hashFn inputs modelName)))) := by
  refine ⟨fun c tbl now idBase m => rfl, ?_, ?_⟩
  · intro inputs m hne hlen hitems
    have hlen0 : inputs.length ≠ 0 := fun h => hne (List.length_eq_zero.mp h)
    simp only [Cache.ValidateRequest, Cache.normalizeInput, Cache.isBatchInput]
    rw [if_neg (by simp), if_neg hlen0, if_pos trivial, if_neg (by omega)]
    have : Cache.tooLongIdx inputs = none := by
      rw [Cache.tooLongIdx, List.findIdx?_eq_none_iff]
      intro s hs
      simp only [decide_eq_false_iff_not, not_lt]
      exact hitems s hs
    rw [this]
  · intro c tbl inputs modelName hmem hnone
    obtain ⟨item, himem, hin, hh, hc⟩ :=
      Cache.prepareAux_mem_of_mem c.hashFn modelName inputs "" hmem 0
    have hnone2 : Store.GetCachedEmbedding tbl item.hash = none := hh ▸ hnone
    have h2 := Cache.attach_mem_of_miss tbl _ item himem hnone2
    have h3 := Cache.uncached_input_mem _ item h2 hc
    exact hin ▸ h3

/-- C10 witness: the theorem's three parts applied at concrete inputs,
with every hypothesis discharged by evaluation. -/
theorem c10_empty_string_asymmetry_witness :
    Cache.handleEmbed Fix.deps Fix.tbl 100 50 { input := .str "", model := "m" } =
      (.error (.processing .emptyInputText), Fix.tbl) ∧
    Cache.ValidateRequest { input := .strArray ["", "x"], model := "m" } = .ok () ∧
    "" ∈ Cache.batchProviderInputs (Cache.getUncachedItems
      (Cache.GetBatchCachedEmbeddings []
        (Cache.prepareBatchItems Fix.deps.hashFn ["", "x"] "m"))) :=
  ⟨c10_empty_string_asymmetry.1 Fix.deps Fix.tbl 100 50 "m",
   c10_empty_string_asymmetry.2.1 ["", "x"] "m" (by decide) (by decide) (by decide),
   c10_empty_string_asymmetry.2.2 Fix.deps [] ["", "x"] "m" (by decide) rfl⟩

namespace Cache

lemma batchCheck_iff (inputs : List String) :
    (if inputs.length = 0 then (Except.error Cache.ValErr.emptyInput : Except Cache.ValErr Unit)
     else if inputs.length > 1000 then .error .batchTooLarge
     else
       match Cache.tooLongIdx inputs with
       | some i => .error (.itemTooLong i)
       | none => .ok ()) = .ok () ↔
      inputs ≠ [] ∧ inputs.length ≤ 1000 ∧ ∀ s ∈ inputs, Hash.goLen s ≤ 10000 := by
  constructor
  · intro h
    by_cases h0 : inputs.length = 0
    · rw [if_pos h0] at h
      cases h
    · rw [if_neg h0] at h
      by_cases h1 : inputs.length > 1000
      · rw [if_pos h1] at h
        cases h
      · rw [if_neg h1] at h
        refine ⟨fun hne => h0 (by simp [hne]), by omega, ?_⟩
        rcases htl : Cache.tooLongIdx inputs with _ | i
        · intro s hs
          have hfalse := (List.findIdx?_eq_none_iff.mp htl) s hs
          simp only [decide_eq_false_iff_not, not_lt] at hfalse
          exact hfalse
        · rw [htl] at h
          cases h
  · rintro ⟨hne, hlen, hall⟩
    rw [if_neg (fun h0 => hne (List.length_eq_zero.mp h0)), if_neg (by omega)]
    have htl : Cache.tooLongIdx inputs = none := by
      rw [Cache.tooLongIdx, List.findIdx?_eq_none_iff]
      intro s hs
      simp only [decide_eq_false_iff_not, not_lt]
      exact hall s hs
    rw [htl]

end Cache

/-- C4 counterexample: the validation limits count UTF-8 bytes, not
characters, and non-string non-array inputs are also rejected.  A
one-item batch whose item is 5001 repetitions of a two-byte character
has character length 5001 (at most 10000) yet is rejected as too long,
and a request whose input is some other JSON value (e.g. a number)
fails validation although none of the claim's listed constraints
holds. -/
theorem c4_counterexample :
    Cache.ValidateRequest { input := .strArray [String.mk (List.replicate 5001 'é')] } =
      .error (.itemTooLong 0) ∧
    (String.mk (List.replicate 5001 'é')).length = 5001 ∧
    Cache.ValidateRequest { input := .other } = .error (.badInput .invalidType) := by
  have hlen : Hash.goLen (String.mk (List.replicate 5001 'é')) = 10002 := by
    show (Hash.utf8Bytes (List.replicate 5001 'é')).length = 10002
    rw [Hash.utf8Bytes_replicate]
    decide
  refine ⟨?_, ?_, rfl⟩
  · have hred : ∀ s : String, Cache.ValidateRequest { input := .strArray [s] } =
        (match Cache.tooLongIdx [s] with
         | some i => Except.error (Cache.ValErr.itemTooLong i)
         | none => Except.ok ()) := fun s => rfl
    have htl : ∀ s : String, Hash.goLen s > 10000 → Cache.tooLongIdx [s] = some 0 := by
      intro s hgt
      rw [Cache.tooLongIdx, List.findIdx?_cons,
        if_pos (by simp only [decide_eq_true_eq]; exact hgt)]
    rw [hred, htl _ (by rw [hlen]; omega)]
  · have h2 : (String.mk (List.replicate 5001 'é')).length = (List.replicate 5001 'é').length :=
      rfl
    rw [h2, List.length_replicate]

/-- C4 amended: validation succeeds if and only if the input
normalizes to a list of strings (it is present and is a string or an
array of strings), the list is non-empty and within the 1000-item cap,
and every item's UTF-8 byte length is at most 10000; equivalently it
fails exactly when the input is absent or ill-typed, a batch element is
not a string, the collection is empty, the batch exceeds 1000 items, or
some item exceeds 10000 bytes.  Moreover any validation failure is
returned by the handler as that single validation error with the store
unchanged, for every store and provider — no lookup, provider call or
store write is performed. -/
theorem c4_validation_contract (req : Cache.EmbeddingRequest) :
    (Cache.ValidateRequest req = .ok () ↔
      ∃ inputs, Cache.normalizeInput req.input = .ok inputs ∧ inputs ≠ [] ∧
        inputs.length ≤ 1000 ∧ ∀ s ∈ inputs, Hash.goLen s ≤ 10000) ∧
    ∀ (e : Cache.ValErr), Cache.ValidateRequest req = .error e →
      ∀ (c : Cache.CacheDeps) (tbl : List Store.CacheRow) (now idBase : Nat),
        Cache.handleEmbed c tbl now idBase req = (.error (.validation e), tbl) := by
  constructor
  · rcases req with ⟨input, model⟩
    cases input with
    | null =>
      constructor
      · intro h
        cases h
      · rintro ⟨inputs, hinp, -⟩
        cases hinp
    | other =>
      constructor
      · intro h
        cases h
      · rintro ⟨inputs, hinp, -⟩
        cases hinp
    | str s =>
      have hred : Cache.ValidateRequest ⟨.str s, model⟩ =
          if Hash.goLen s > 10000 then .error .inputTooLong else .ok () := rfl
      rw [hred]
      constructor
      · intro h
        by_cases hgt : Hash.goLen s > 10000
        · rw [if_pos hgt] at h
          cases h
        · refine ⟨[s], rfl, by simp, by simp, ?_⟩
          intro x hx
          rw [List.mem_singleton.mp hx]
          omega
      · rintro ⟨inputs, hinp, -, -, hall⟩
        have hxs : inputs = [s] := by
          injection hinp with h
          exact h.symm
        subst hxs
        rw [if_neg]
        have := hall s (by simp)
        omega
    | strArray xs =>
      have hred : Cache.ValidateRequest ⟨.strArray xs, model⟩ =
          (if xs.length = 0 then .error .emptyInput
           else if xs.length > 1000 then .error .batchTooLarge
           else
             match Cache.tooLongIdx xs with
             | some i => .error (.itemTooLong i)
             | none => .ok ()) := rfl
      rw [hred, Cache.batchCheck_iff]
      constructor
      · rintro ⟨hne, hlen, hall⟩
        exact ⟨xs, rfl, hne, hlen, hall⟩
      · rintro ⟨inputs, hinp, hne, hlen, hall⟩
        have hxs : inputs = xs := by
          injection hinp with h
          exact h.symm
        subst hxs
        exact ⟨hne, hlen, hall⟩
    | anyArray xs =>
      have hred : Cache.ValidateRequest ⟨.anyArray xs, model⟩ =
          (match Cache.itemsToStrings xs 0 with
           | .error e => .error (.badInput e)
           | .ok inputs =>
             if inputs.length = 0 then .error .emptyInput
             else if inputs.length > 1000 then .error .batchTooLarge
             else
               match Cache.tooLongIdx inputs with
               | some i => .error (.itemTooLong i)
               | none => .ok ()) := rfl
      rw [hred]
      rcases hres : Cache.itemsToStrings xs 0 with e | inputs
      · constructor
        · intro h
          cases h
        · rintro ⟨inputs, hinp, -⟩
          rw [show Cache.normalizeInput (.anyArray xs) = Cache.itemsToStrings xs 0 from rfl,
            hres] at hinp
          cases hinp
      · rw [Cache.batchCheck_iff]
        constructor
        · rintro ⟨hne, hlen, hall⟩
          refine ⟨inputs, ?_, hne, hlen, hall⟩
          rw [show Cache.normalizeInput (.anyArray xs) = Cache.itemsToStrings xs 0 from rfl, hres]
        · rintro ⟨inputs2, hinp, hne, hlen, hall⟩
          rw [show Cache.normalizeInput (.anyArray xs) = Cache.itemsToStrings xs 0 from rfl,
            hres] at hinp
          have hxs : inputs2 = inputs := by
            injection hinp with h
            exact h.symm
          subst hxs
          exact ⟨hne, hlen, hall⟩
  · intro e he c tbl now idBase
    simp [Cache.handleEmbed, he]

/-- C4 witness: the amended contract applied concretely — "hello" (5
bytes) passes validation via the backward direction, and a numeric
input's validation failure short-circuits the handler, leaving the
store untouched. -/
theorem c4_validation_contract_witness :
    Cache.ValidateRequest { input := Cache.InputValue.str "hello" } = .ok () ∧
    Cache.handleEmbed Fix.deps Fix.tbl 100 50 { input := .other } =
      (.error (.validation (.badInput .invalidType)), Fix.tbl) :=
  ⟨(c4_validation_contract { input := .str "hello" }).1.mpr
      ⟨["hello"], rfl, by decide, by decide, by decide⟩,
   (c4_validation_contract { input := .other }).2 _ rfl Fix.deps Fix.tbl 100 50⟩

namespace Store

lemma any_of_find? (tbl : List CacheRow) (f : String) (row : CacheRow)
    (hfind : tbl.find? (fun r => r.inputHash == f) = some row) :
    tbl.any (fun r => r.inputHash == f) = true := by
  have hp := List.find?_some hfind
  have hm := List.mem_of_find?_eq_some hfind
  rw [List.any_eq_true]
  exact ⟨row, hm, hp⟩

lemma StoreEmbedding_of_any (tbl : List CacheRow) (newId now : Nat)
    (inputHash inputText modelName : String) (vec : List Int)
    (h : tbl.any (fun r => r.inputHash == inputHash) = true) :
    StoreEmbedding tbl newId now inputHash inputText modelName vec =
      tbl.map (fun r =>
        if r.inputHash == inputHash then
          { r with embeddingVector := vec, updatedAt := now, usedAt := now }
        else r) := by
  unfold StoreEmbedding
  rw [if_pos h]

lemma find?_store_update (tbl : List CacheRow) (f : String) (row : CacheRow)
    (vec : List Int) (now : Nat)
    (hfind : tbl.find? (fun r => r.inputHash == f) = some row) :
    (tbl.map (fun r =>
        if r.inputHash == f then
          { r with embeddingVector := vec, updatedAt := now, usedAt := now }
        else r)).find? (fun r => r.inputHash == f) =
      some { row with embeddingVector := vec, updatedAt := now, usedAt := now } := by
  induction tbl with
  | nil => cases hfind
  | cons r rest ih =>
    by_cases hc : (r.inputHash == f) = true
    · simp only [List.find?, hc] at hfind
      injection hfind with hrow
      subst hrow
      rw [List.map_cons, if_pos hc]
      simp only [List.find?, hc]
    · have hc2 : (r.inputHash == f) = false := by
        simpa using hc
      simp only [List.find?, hc2] at hfind
      rw [List.map_cons, if_neg (by simp [hc2])]
      simp only [List.find?, hc2]
      exact ih hfind

lemma store_update_hashes (tbl : List CacheRow) (f : String) (vec : List Int) (now : Nat) :
    (tbl.map (fun r =>
        if r.inputHash == f then
          { r with embeddingVector := vec, updatedAt := now, usedAt := now }
        else r)).map (fun r => r.inputHash) = tbl.map (fun r => r.inputHash) := by
  rw [List.map_map]
  apply List.map_congr_left
  intro r _
  by_cases hc : r.inputHash = f <;> simp [hc]

lemma filter_count_one (tbl : List CacheRow) (f : String) (row : CacheRow)
    (hfind : tbl.find? (fun r => r.inputHash == f) = some row)
    (huniq : (tbl.map (fun r => r.inputHash)).Nodup) :
    (tbl.filter (fun r => r.inputHash == f)).length = 1 := by
  induction tbl with
  | nil => cases hfind
  | cons r rest ih =>
    rw [List.map_cons, List.nodup_cons] at huniq
    by_cases hc : (r.inputHash == f) = true
    · have hrest : rest.filter (fun x => x.inputHash == f) = [] := by
        rw [List.filter_eq_nil_iff]
        intro x hx hpx
        apply huniq.1
        have hxf : x.inputHash = f := by simpa using hpx
        have hrf : r.inputHash = f := by simpa using hc
        rw [hrf, ← hxf]
        exact List.mem_map_of_mem _ hx
      simp only [List.filter, hc, hrest]
      rfl
    · have hc2 : (r.inputHash == f) = false := by
        simpa using hc
      simp only [List.filter, hc2]
      simp only [List.find?, hc2] at hfind
      exact ih hfind huniq.2

end Store

/-- C7: upsert semantics and frame.  On a store whose fingerprints are
unique (the table's UNIQUE constraint) and which contains a row for
fingerprint f, an upsert replaces only the row's vector and refreshes
updated_at/used_at to the write time, leaving id, fingerprint,
original text, model name, input length and created_at unchanged; the
store still holds exactly one row for f.  A second upsert with a
different vector leaves exactly one row carrying the later vector and
the later timestamps (so with t1 < t2, updated_at has advanced). -/
theorem c7_upsert_semantics (tbl : List Store.CacheRow) (row : Store.CacheRow)
    (f text1 model1 text2 model2 : String) (vec1 vec2 : List Int) (id1 id2 t1 t2 : Nat)
    (huniq : (tbl.map (fun r => r.inputHash)).Nodup)
    (hfind : Store.GetCachedEmbedding tbl f = some row) :
    Store.GetCachedEmbedding (Store.StoreEmbedding tbl id1 t1 f text1 model1 vec1) f =
      some { row with embeddingVector := vec1, updatedAt := t1, usedAt := t1 } ∧
    ((Store.StoreEmbedding tbl id1 t1 f text1 model1 vec1).filter
        (fun r => r.inputHash == f)).length = 1 ∧
    Store.GetCachedEmbedding
        (Store.StoreEmbedding (Store.StoreEmbedding tbl id1 t1 f text1 model1 vec1)
          id2 t2 f text2 model2 vec2) f =
      some { row with embeddingVector := vec2, updatedAt := t2, usedAt := t2 } ∧
    ((Store.StoreEmbedding (Store.StoreEmbedding tbl id1 t1 f text1 model1 vec1)
        id2 t2 f text2 model2 vec2).filter (fun r => r.inputHash == f)).length = 1 := by
  have hfind1 : tbl.find? (fun r => r.inputHash == f) = some row := hfind
  have hstep1 : Store.StoreEmbedding tbl id1 t1 f text1 model1 vec1 =
      tbl.map (fun r =>
        if r.inputHash == f then
          { r with embeddingVector := vec1, updatedAt := t1, usedAt := t1 }
        else r) :=
    Store.StoreEmbedding_of_any tbl id1 t1 f text1 model1 vec1
      (Store.any_of_find? tbl f row hfind1)
  have hfind2 : (Store.StoreEmbedding tbl id1 t1 f text1 model1 vec1).find?
      (fun r => r.inputHash == f) =
      some { row with embeddingVector := vec1, updatedAt := t1, usedAt := t1 } := by
    rw [hstep1]
    exact Store.find?_store_update tbl f row vec1 t1 hfind1
  have huniq2 : ((Store.StoreEmbedding tbl id1 t1 f text1 model1 vec1).map
      (fun r => r.inputHash)).Nodup := by
    rw [hstep1, Store.store_update_hashes]
    exact huniq
  have hstep2 : Store.StoreEmbedding (Store.StoreEmbedding tbl id1 t1 f text1 model1 vec1)
      id2 t2 f text2 model2 vec2 =
      (Store.StoreEmbedding tbl id1 t1 f text1 model1 vec1).map (fun r =>
        if r.inputHash == f then
          { r with embeddingVector := vec2, updatedAt := t2, usedAt := t2 }
        else r) :=
    Store.StoreEmbedding_of_any _ id2 t2 f text2 model2 vec2
      (Store.any_of_find? _ f _ hfind2)
  have hfind3 := Store.find?_store_update _ f _ vec2 t2 hfind2
  refine ⟨hfind2, ?_, ?_, ?_⟩
  · exact Store.filter_count_one _ f _ hfind2 huniq2
  · show (Store.StoreEmbedding (Store.StoreEmbedding tbl id1 t1 f text1 model1 vec1)
        id2 t2 f text2 model2 vec2).find? (fun r => r.inputHash == f) = _
    rw [hstep2]
    exact hfind3
  · rw [hstep2]
    refine Store.filter_count_one _ f _ hfind3 ?_
    rw [Store.store_update_hashes]
    exact huniq2

/-- C7 witness: the upsert theorem applied to the concrete one-row
store, with uniqueness and presence discharged by evaluation. -/
theorem c7_upsert_semantics_witness :
    Store.GetCachedEmbedding
        (Store.StoreEmbedding Fix.tbl 11 5 (Fix.hf "a" "m") "a" "m" [1, 2]) (Fix.hf "a" "m") =
      some { Fix.row1 with embeddingVector := [1, 2], updatedAt := 5, usedAt := 5 } ∧
    ((Store.StoreEmbedding Fix.tbl 11 5 (Fix.hf "a" "m") "a" "m" [1, 2]).filter
        (fun r => r.inputHash == Fix.hf "a" "m")).length = 1 ∧
    Store.GetCachedEmbedding
        (Store.StoreEmbedding (Store.StoreEmbedding Fix.tbl 11 5 (Fix.hf "a" "m") "a" "m" [1, 2])
          12 6 (Fix.hf "a" "m") "a" "m" [3]) (Fix.hf "a" "m") =
      some { Fix.row1 with embeddingVector := [3], updatedAt := 6, usedAt := 6 } ∧
    ((Store.StoreEmbedding (Store.StoreEmbedding Fix.tbl 11 5 (Fix.hf "a" "m") "a" "m" [1, 2])
        12 6 (Fix.hf "a" "m") "a" "m" [3]).filter
        (fun r => r.inputHash == Fix.hf "a" "m")).length = 1 :=
  c7_upsert_semantics Fix.tbl Fix.row1 (Fix.hf "a" "m") "a" "m" "a" "m" [1, 2] [3] 11 12 5 6
    (by decide) rfl

/-- C2, evaluated at the failing input: with `maxRetries = 1` and a
provider that fails on attempt 0 but returns a non-empty result with
one non-empty vector per input on attempt 1, `CreateBatchEmbeddings`
still returns the exhaustion error (wrapping attempt 0's transport
error and the attempt count 2) instead of attempt 1's vectors, because
`lastErr` is never reset between attempts. -/
theorem c2_retry_success_discarded :
    OpenAI.CreateBatchEmbeddings Fix.failThenOk 1 ["a"] =
      .error (.exhausted 2 (some (.transport 7))) ∧
    Fix.failThenOk 1 =
      .respond { data := [[1]], model := "m", promptTokens := 1, totalTokens := 1 } :=
  ⟨rfl, rfl⟩

/-- C3, evaluated at the failing input: a one-item batch that misses
the cache triggers a provider call whose reported usage is 5 prompt / 6
total tokens, yet the batch response carries zero token usage — the
batch path never copies `aiResponse.TokenUsage` into the response. -/
theorem c3_token_usage_dropped :
    (Cache.processBatchRequest Fix.deps [] 100 50 { input := .strArray ["a"] }).1 =
      .ok { embeddings := [[9]], model := "m", cachedItems := [false],
            promptTokens := 0, totalTokens := 0 } ∧
    Fix.prov ["a"] =
      .ok { embeddings := [[9]], model := "m", promptTokens := 5, totalTokens := 6 } :=
  ⟨rfl, rfl⟩

/-- C8 counterexample: enqueue id 1 (it is accepted into the channel),
then stop cleanly — the scheduler resolves each goroutine's `select`
to the ready `stopChan` arm, which Go permits even though the channel
holds an id.  Both tasks have terminated (so `wg.Wait` returns), the
final flush ran (buffer empty), yet no `markUsed` flush ever contained
id 1: it is still sitting in the closed channel. -/
theorem c8_counterexample :
    (Tracker.trackerStop 10 (Tracker.trun 10 Tracker.initState [.track 1])
        [.ingestStop, .timerStop]).flushed = [] ∧
    (Tracker.trackerStop 10 (Tracker.trun 10 Tracker.initState [.track 1])
        [.ingestStop, .timerStop]).enqueued = [1] ∧
    (Tracker.trackerStop 10 (Tracker.trun 10 Tracker.initState [.track 1])
        [.ingestStop, .timerStop]).ingestRunning = false ∧
    (Tracker.trackerStop 10 (Tracker.trun 10 Tracker.initState [.track 1])
        [.ingestStop, .timerStop]).timerRunning = false ∧
    (Tracker.trackerStop 10 (Tracker.trun 10 Tracker.initState [.track 1])
        [.ingestStop, .timerStop]).buffer = [] ∧
    (Tracker.trackerStop 10 (Tracker.trun 10 Tracker.initState [.track 1])
        [.ingestStop, .timerStop]).chan = [1] :=
  ⟨rfl, rfl, rfl, rfl, rfl, rfl⟩

namespace Tracker

lemma flushBuffer_buffer (s : TrackerState) : (flushBuffer s).buffer = [] := by
  unfold flushBuffer
  by_cases hb : s.buffer = []
  · rw [if_pos hb]
    exact hb
  · rw [if_neg hb]

lemma accounted_flush (s : TrackerState) (id : Nat) (h : accounted s id) :
    accounted (flushBuffer s) id := by
  unfold flushBuffer
  by_cases hb : s.buffer = []
  · rw [if_pos hb]
    exact h
  · rw [if_neg hb]
    rcases h with h | h | ⟨b, hbf, hid⟩
    · exact Or.inl h
    · exact Or.inr (Or.inr ⟨s.buffer, by simp, h⟩)
    · exact Or.inr (Or.inr ⟨b, by simp [hbf], hid⟩)

lemma accounted_step (bs : Nat) (s : TrackerState) (a : TAct) (id : Nat)
    (h : accounted s id) : accounted (tstep bs s a) id := by
  cases a with
  | track i =>
    show accounted (trackUsage i s) id
    unfold trackUsage
    by_cases hsend : (!s.chanClosed && decide (s.chan.length < chanCap)) = true
    · rw [if_pos hsend]
      rcases h with h | h | h
      · exact Or.inl (by simp [h])
      · exact Or.inr (Or.inl h)
      · exact Or.inr (Or.inr h)
    · rw [if_neg hsend]
      exact h
  | ingestRecv =>
    show accounted _ id
    rcases hchan : s.chan with _ | ⟨i, rest⟩
    · simpa [tstep, hchan] using h
    · simp only [tstep, hchan]
      by_cases hrun : s.ingestRunning = true
      · rw [if_pos hrun]
        have hacc2 : accounted { s with chan := rest, buffer := s.buffer ++ [i] } id := by
          rcases h with h | h | h
          · rw [hchan] at h
            rcases List.mem_cons.mp h with rfl | h2
            · exact Or.inr (Or.inl (by simp))
            · exact Or.inl h2
          · exact Or.inr (Or.inl (by simp [h]))
          · exact Or.inr (Or.inr h)
        by_cases hflush :
            ({ s with chan := rest, buffer := s.buffer ++ [i] } : TrackerState).buffer.length ≥ bs
        · rw [if_pos hflush]
          exact accounted_flush _ id hacc2
        · rw [if_neg hflush]
          exact hacc2
      · rw [if_neg hrun]
        exact h
  | ingestChanDrained =>
    show accounted _ id
    unfold tstep
    by_cases hc : (s.ingestRunning && s.chanClosed && s.chan.isEmpty) = true
    · rw [if_pos hc]
      exact h
    · rw [if_neg hc]
      exact h
  | ingestStop =>
    show accounted _ id
    unfold tstep
    by_cases hc : (s.ingestRunning && s.stopClosed) = true
    · rw [if_pos hc]
      exact h
    · rw [if_neg hc]
      exact h
  | timerTick =>
    show accounted _ id
    unfold tstep
    by_cases hc : s.timerRunning = true
    · rw [if_pos hc]
      exact accounted_flush s id h
    · rw [if_neg hc]
      exact h
  | timerStop =>
    show accounted _ id
    unfold tstep
    by_cases hc : (s.timerRunning && s.stopClosed) = true
    · rw [if_pos hc]
      exact h
    · rw [if_neg hc]
      exact h

lemma accounted_run (bs : Nat) (acts : List TAct) (id : Nat) :
    ∀ s : TrackerState, accounted s id → accounted (trun bs s acts) id := by
  induction acts with
  | nil =>
    intro s h
    exact h
  | cons a rest ih =>
    intro s h
    exact ih (tstep bs s a) (accounted_step bs s a id h)

lemma conserved_step (bs : Nat) (s : TrackerState) (a : TAct) (h : conserved s) :
    conserved (tstep bs s a) := by
  intro id hid
  cases a with
  | track i =>
    have hstep : tstep bs s (.track i) = trackUsage i s := rfl
    rw [hstep] at hid ⊢
    unfold trackUsage at hid ⊢
    by_cases hsend : (!s.chanClosed && decide (s.chan.length < chanCap)) = true
    · rw [if_pos hsend] at hid ⊢
      show id ∈ s.chan ++ [i] ∨ id ∈ s.buffer ∨ ∃ b ∈ s.flushed, id ∈ b
      rcases List.mem_append.mp hid with h2 | h2
      · rcases h id h2 with ha | ha | ha
        · exact Or.inl (List.mem_append_left _ ha)
        · exact Or.inr (Or.inl ha)
        · exact Or.inr (Or.inr ha)
      · exact Or.inl (List.mem_append_right _ h2)
    · rw [if_neg hsend] at hid ⊢
      exact h id hid
  | ingestRecv =>
    have henq : (tstep bs s .ingestRecv).enqueued = s.enqueued := by
      rcases hchan : s.chan with _ | ⟨i, rest⟩
      · simp [tstep, hchan]
      · simp only [tstep, hchan]
        by_cases hrun : s.ingestRunning = true
        · rw [if_pos hrun]
          by_cases hflush :
              ({ s with chan := rest, buffer := s.buffer ++ [i] } : TrackerState).buffer.length ≥ bs
          · rw [if_pos hflush]
            unfold flushBuffer
            by_cases hb : ({ s with chan := rest, buffer := s.buffer ++ [i] } :
                TrackerState).buffer = []
            · rw [if_pos hb]
            · rw [if_neg hb]
          · rw [if_neg hflush]
        · rw [if_neg hrun]
    rw [henq] at hid
    exact accounted_step bs s .ingestRecv id (h id hid)
  | ingestChanDrained =>
    have henq : (tstep bs s .ingestChanDrained).enqueued = s.enqueued := by
      unfold tstep
      by_cases hc : (s.ingestRunning && s.chanClosed && s.chan.isEmpty) = true
      · rw [if_pos hc]
      · rw [if_neg hc]
    rw [henq] at hid
    exact accounted_step bs s .ingestChanDrained id (h id hid)
  | ingestStop =>
    have henq : (tstep bs s .ingestStop).enqueued = s.enqueued := by
      unfold tstep
      by_cases hc : (s.ingestRunning && s.stopClosed) = true
      · rw [if_pos hc]
      · rw [if_neg hc]
    rw [henq] at hid
    exact accounted_step bs s .ingestStop id (h id hid)
  | timerTick =>
    have henq : (tstep bs s .timerTick).enqueued = s.enqueued := by
      unfold tstep
      by_cases hc : s.timerRunning = true
      · rw [if_pos hc]
        unfold flushBuffer
        by_cases hb : s.buffer = []
        · rw [if_pos hb]
        · rw [if_neg hb]
      · rw [if_neg hc]
    rw [henq] at hid
    exact accounted_step bs s .timerTick id (h id hid)
  | timerStop =>
    have henq : (tstep bs s .timerStop).enqueued = s.enqueued := by
      unfold tstep
      by_cases hc : (s.timerRunning && s.stopClosed) = true
      · rw [if_pos hc]
      · rw [if_neg hc]
    rw [henq] at hid
    exact accounted_step bs s .timerStop id (h id hid)

lemma conserved_run (bs : Nat) (acts : List TAct) (s : TrackerState) (h : conserved s) :
    conserved (trun bs s acts) := by
  induction acts generalizing s with
  | nil => exact h
  | cons a rest ih => exact ih (tstep bs s a) (conserved_step bs s a h)

lemma conserved_init : conserved initState := by
  intro id hid
  cases hid

end Tracker

/-- C8 amended: on a clean shutdown, every id that was successfully
enqueued before `Stop` began is, when `Stop` returns, either included
in some `markUsed` flush or still sitting unread in the closed channel
— ids the ingest goroutine abandoned in the channel when it took the
stop signal are silently lost (the final synchronous flush drains only
the buffer, which is empty afterwards).  Ids that had been moved into
the buffer are never lost. -/
theorem c8_shutdown_drain (batchSize : Nat) (initActs sched : List Tracker.TAct) (id : Nat)
    (hid : id ∈ (Tracker.trun batchSize Tracker.initState initActs).enqueued) :
    (Tracker.trackerStop batchSize (Tracker.trun batchSize Tracker.initState initActs)
        sched).buffer = [] ∧
    (id ∈ (Tracker.trackerStop batchSize (Tracker.trun batchSize Tracker.initState initActs)
        sched).chan ∨
      ∃ b ∈ (Tracker.trackerStop batchSize (Tracker.trun batchSize Tracker.initState initActs)
        sched).flushed, id ∈ b) := by
  constructor
  · exact Tracker.flushBuffer_buffer _
  · have hcons : Tracker.conserved (Tracker.trun batchSize Tracker.initState initActs) :=
      Tracker.conserved_run batchSize initActs Tracker.initState Tracker.conserved_init
    have hacc0 : Tracker.accounted (Tracker.trun batchSize Tracker.initState initActs) id :=
      hcons id hid
    have hacc1 : Tracker.accounted
        { Tracker.trun batchSize Tracker.initState initActs with
          stopClosed := true, chanClosed := true } id := by
      rcases hacc0 with h | h | h
      · exact Or.inl h
      · exact Or.inr (Or.inl h)
      · exact Or.inr (Or.inr h)
    have hacc2 : Tracker.accounted (Tracker.trun batchSize
        { Tracker.trun batchSize Tracker.initState initActs with
          stopClosed := true, chanClosed := true } sched) id :=
      Tracker.accounted_run batchSize sched id _ hacc1
    have hacc3 := Tracker.accounted_flush _ id hacc2
    rcases hacc3 with h | h | h
    · exact Or.inl h
    · rw [Tracker.flushBuffer_buffer] at h
      cases h
    · exact Or.inr h

/-- C8 witness: concretely, id 5 enqueued and drained into the buffer
before shutdown (immediate flush at batch size 1) is present in a
flush when `Stop` returns. -/
theorem c8_shutdown_drain_witness :
    (Tracker.trackerStop 1 (Tracker.trun 1 Tracker.initState [.track 5, .ingestRecv])
        [.ingestStop, .timerStop]).buffer = [] ∧
    (5 ∈ (Tracker.trackerStop 1 (Tracker.trun 1 Tracker.initState [.track 5, .ingestRecv])
        [.ingestStop, .timerStop]).chan ∨
      ∃ b ∈ (Tracker.trackerStop 1 (Tracker.trun 1 Tracker.initState [.track 5, .ingestRecv])
        [.ingestStop, .timerStop]).flushed, 5 ∈ b) :=
  c8_shutdown_drain 1 [.track 5, .ingestRecv] [.ingestStop, .timerStop] 5 (by decide)

namespace Cache

lemma prepareAux_eq (hashFn : String → String → String) (m : String) :
    ∀ (inputs : List String) (i : Nat),
      prepareAux hashFn m inputs i = (List.range inputs.length).map (fun j =>
        { input := inputs.getD j "", hash := hashFn (inputs.getD j "") m,
          index := i + j, cached := none }) := by
  intro inputs
  induction inputs with
  | nil =>
    intro i
    rfl
  | cons s rest ih =>
    intro i
    show ({ input := s, hash := hashFn s m, index := i, cached := none } : BatchItem) ::
        prepareAux hashFn m rest (i + 1) = _
    rw [List.length_cons, List.range_succ_eq_map, List.map_cons, ih (i + 1), List.map_map]
    congr 1
    apply List.map_congr_left
    intro j hj
    simp only [Function.comp_apply, List.getD_cons_succ, BatchItem.mk.injEq, eq_self_iff_true,
      true_and, and_true]
    omega

lemma prepareBatchItems_eq (hashFn : String → String → String) (m : String)
    (inputs : List String) :
    prepareBatchItems hashFn inputs m =
      (List.range inputs.length).map (itemAt hashFn m inputs) := by
  unfold prepareBatchItems
  rw [prepareAux_eq]
  apply List.map_congr_left
  intro j hj
  simp [itemAt]

lemma hashToItem_no_match (h : String) :
    ∀ (items : List BatchItem) (acc : Option BatchItem),
      (∀ it ∈ items, it.hash ≠ h) →
      items.foldl (fun acc item => if item.hash == h then some item else acc) acc = acc := by
  intro items
  induction items with
  | nil =>
    intro acc _
    rfl
  | cons x rest ih =>
    intro acc hno
    rw [List.foldl_cons, if_neg (by simpa using hno x (List.mem_cons_self x rest))]
    exact ih acc (fun it hit => hno it (List.mem_cons_of_mem x hit))

lemma hashToItem_last (A B : List BatchItem) (x : BatchItem)
    (hB : ∀ it ∈ B, it.hash ≠ x.hash) :
    hashToItem (A ++ x :: B) x.hash = some x := by
  unfold hashToItem
  rw [List.foldl_append, List.foldl_cons, if_pos (by simp)]
  exact hashToItem_no_match x.hash B (some x) hB

lemma hashToItem_match_exists (h : String) :
    ∀ (B : List BatchItem) (acc : Option BatchItem),
      (∃ it ∈ B, it.hash = h) →
      ∃ w ∈ B,
        B.foldl (fun acc item => if item.hash == h then some item else acc) acc = some w ∧
        w.hash = h := by
  intro B
  induction B with
  | nil =>
    intro acc hex
    rcases hex with ⟨it, hit, _⟩
    cases hit
  | cons x rest ih =>
    intro acc hex
    rw [List.foldl_cons]
    by_cases hrest : ∃ it ∈ rest, it.hash = h
    · obtain ⟨w, hw, heq, hwh⟩ := ih _ hrest
      exact ⟨w, List.mem_cons_of_mem x hw, heq, hwh⟩
    · have hx : x.hash = h := by
        rcases hex with ⟨it, hit, hh⟩
        rcases List.mem_cons.mp hit with rfl | h2
        · exact hh
        · exact absurd ⟨it, h2, hh⟩ hrest
      have hnom : ∀ it ∈ rest, it.hash ≠ h := fun it h2 hh2 => hrest ⟨it, h2, hh2⟩
      rw [if_pos (by simp [hx])]
      rw [hashToItem_no_match h rest (some x) hnom]
      exact ⟨x, List.mem_cons_self x rest, rfl, hx⟩

lemma hashToItem_notlast (A B : List BatchItem) (x : BatchItem)
    (hB : ∃ it ∈ B, it.hash = x.hash) :
    ∃ w ∈ B, hashToItem (A ++ x :: B) x.hash = some w ∧ w.hash = x.hash := by
  unfold hashToItem
  rw [List.foldl_append, List.foldl_cons]
  exact hashToItem_match_exists x.hash B _ hB

lemma range_split (N p : Nat) (hp : p < N) :
    List.range N = List.range p ++ p :: List.range' (p + 1) (N - p - 1) := by
  conv_lhs => rw [List.range_eq_range', show N = (N - p - 1) + 1 + p from by omega,
    ← List.range'_append_1 0 p (N - p - 1 + 1)]
  rw [Nat.zero_add, List.range'_succ, ← List.range_eq_range']

lemma attached_getElem (tbl : List Store.CacheRow) (hashFn : String → String → String)
    (m : String) (inputs : List String) (p : Nat) (hp : p < inputs.length) :
    (GetBatchCachedEmbeddings tbl (prepareBatchItems hashFn inputs m))[p]? =
      some (match Store.GetCachedEmbedding tbl (itemAt hashFn m inputs p).hash with
        | some row =>
          if hashToItem (prepareBatchItems hashFn inputs m) (itemAt hashFn m inputs p).hash =
              some (itemAt hashFn m inputs p)
          then { itemAt hashFn m inputs p with cached := some row }
          else itemAt hashFn m inputs p
        | none => itemAt hashFn m inputs p) := by
  unfold GetBatchCachedEmbeddings
  rw [List.getElem?_map]
  have hitem : (prepareBatchItems hashFn inputs m)[p]? = some (itemAt hashFn m inputs p) := by
    rw [prepareBatchItems_eq, List.getElem?_map, List.getElem?_range hp]
    rfl
  rw [hitem]
  rfl

lemma attached_last (tbl : List Store.CacheRow) (hashFn : String → String → String)
    (m : String) (inputs : List String) (p : Nat) (hp : p < inputs.length)
    (hlast : ∀ j, p < j → j < inputs.length →
      hashFn (inputs.getD j "") m ≠ hashFn (inputs.getD p "") m) :
    (GetBatchCachedEmbeddings tbl (prepareBatchItems hashFn inputs m))[p]? =
      some (attachOne tbl (itemAt hashFn m inputs p)) := by
  rw [attached_getElem tbl hashFn m inputs p hp]
  have hwin : hashToItem (prepareBatchItems hashFn inputs m)
      (itemAt hashFn m inputs p).hash = some (itemAt hashFn m inputs p) := by
    rw [prepareBatchItems_eq, range_split inputs.length p hp, List.map_append, List.map_cons]
    apply hashToItem_last
    intro it hit
    rcases List.mem_map.mp hit with ⟨j, hj, rfl⟩
    have hjr := List.mem_range'_1.mp hj
    exact hlast j (by omega) (by omega)
  rcases hlook : Store.GetCachedEmbedding tbl (itemAt hashFn m inputs p).hash with _ | row
  · simp [attachOne, hlook]
  · simp [attachOne, hlook, hwin]

lemma attached_notlast (tbl : List Store.CacheRow) (hashFn : String → String → String)
    (m : String) (inputs : List String) (p q : Nat) (hpq : p < q) (hq : q < inputs.length)
    (hsame : hashFn (inputs.getD q "") m = hashFn (inputs.getD p "") m) :
    (GetBatchCachedEmbeddings tbl (prepareBatchItems hashFn inputs m))[p]? =
      some (itemAt hashFn m inputs p) := by
  have hp : p < inputs.length := by omega
  rw [attached_getElem tbl hashFn m inputs p hp]
  rcases hlook : Store.GetCachedEmbedding tbl (itemAt hashFn m inputs p).hash with _ | row
  · simp [hlook]
  · have hnw : hashToItem (prepareBatchItems hashFn inputs m)
        (itemAt hashFn m inputs p).hash ≠ some (itemAt hashFn m inputs p) := by
      rw [prepareBatchItems_eq, range_split inputs.length p hp, List.map_append, List.map_cons]
      have hex : ∃ it ∈ (List.range' (p + 1) (inputs.length - p - 1)).map
          (itemAt hashFn m inputs), it.hash = (itemAt hashFn m inputs p).hash := by
        refine ⟨itemAt hashFn m inputs q, ?_, ?_⟩
        · apply List.mem_map_of_mem
          rw [List.mem_range'_1]
          omega
        · exact hsame
      obtain ⟨w, hw, heq, hwh⟩ := hashToItem_notlast
        ((List.range p).map (itemAt hashFn m inputs))
        ((List.range' (p + 1) (inputs.length - p - 1)).map (itemAt hashFn m inputs))
        (itemAt hashFn m inputs p) hex
      rw [heq]
      intro hcontra
      injection hcontra with hcw
      rcases List.mem_map.mp hw with ⟨j, hj, rfl⟩
      have hjr := List.mem_range'_1.mp hj
      have hidx : (itemAt hashFn m inputs j).index = (itemAt hashFn m inputs p).index := by
        rw [hcw]
      simp only [itemAt] at hidx
      omega
    simp [hlook, hnw]

lemma getD_eq_getElem_of_lt (inputs : List String) (n : Nat) (hn : n < inputs.length) :
    inputs.getD n "" = inputs[n] := by
  rw [List.getD_eq_getElem?_getD, List.getElem?_eq_getElem hn]
  rfl

lemma attached_eq_of_nodup (tbl : List Store.CacheRow) (hashFn : String → String → String)
    (m : String) (inputs : List String)
    (hnodup : (inputs.map (fun s => hashFn s m)).Nodup) :
    GetBatchCachedEmbeddings tbl (prepareBatchItems hashFn inputs m) =
      (List.range inputs.length).map (fun j => attachOne tbl (itemAt hashFn m inputs j)) := by
  have hlen1 : (GetBatchCachedEmbeddings tbl (prepareBatchItems hashFn inputs m)).length =
      inputs.length := by
    unfold GetBatchCachedEmbeddings
    rw [List.length_map, prepareBatchItems_eq, List.length_map, List.length_range]
  apply List.ext_getElem?
  intro p
  by_cases hp : p < inputs.length
  · have hlast : ∀ j, p < j → j < inputs.length →
        hashFn (inputs.getD j "") m ≠ hashFn (inputs.getD p "") m := by
      intro j hpj hj hne
      have hpair := (List.pairwise_iff_getElem.mp hnodup) p j
        (by rw [List.length_map]; omega) (by rw [List.length_map]; omega) hpj
      apply hpair
      rw [List.getElem_map, List.getElem_map,
        ← getD_eq_getElem_of_lt inputs p hp, ← getD_eq_getElem_of_lt inputs j hj]
      exact hne.symm
    rw [attached_last tbl hashFn m inputs p hp hlast, List.getElem?_map,
      List.getElem?_range hp]
    rfl
  · have h1 : (GetBatchCachedEmbeddings tbl (prepareBatchItems hashFn inputs m))[p]? = none :=
      List.getElem?_eq_none (by rw [hlen1]; omega)
    have h2 : ((List.range inputs.length).map
        (fun j => attachOne tbl (itemAt hashFn m inputs j)))[p]? = none :=
      List.getElem?_eq_none (by rw [List.length_map, List.length_range]; omega)
    rw [h1, h2]

lemma attachOne_cached (tbl : List Store.CacheRow) (item : BatchItem)
    (hc : item.cached = none) :
    (attachOne tbl item).cached = Store.GetCachedEmbedding tbl item.hash := by
  unfold attachOne
  rcases hlook : Store.GetCachedEmbedding tbl item.hash with _ | row
  · simpa using hc
  · rfl

lemma uncached_eq_of_nodup (tbl : List Store.CacheRow) (hashFn : String → String → String)
    (m : String) (inputs : List String)
    (hnodup : (inputs.map (fun s => hashFn s m)).Nodup) :
    getUncachedItems (GetBatchCachedEmbeddings tbl (prepareBatchItems hashFn inputs m)) =
      ((List.range inputs.length).filter (fun j =>
        (Store.GetCachedEmbedding tbl (hashFn (inputs.getD j "") m)).isNone)).map
        (fun j => attachOne tbl (itemAt hashFn m inputs j)) := by
  rw [attached_eq_of_nodup tbl hashFn m inputs hnodup]
  unfold getUncachedItems
  rw [List.filter_map]
  congr 1
  apply List.filter_congr
  intro j hj
  have hcached : (attachOne tbl (itemAt hashFn m inputs j)).cached =
      Store.GetCachedEmbedding tbl (hashFn (inputs.getD j "") m) :=
    attachOne_cached tbl _ rfl
  simp only [Function.comp_apply, hcached]

lemma fillHits_cons (x : BatchItem) (rest : List BatchItem) (r : List (Option BatchResult)) :
    fillHits (x :: rest) r = fillHits rest
      (match x.cached with
       | some row =>
         r.set x.index (some { embedding := row.embeddingVector, cached := true, index := x.index })
       | none => r) := rfl

lemma fillHits_append (A B : List BatchItem) (r : List (Option BatchResult)) :
    fillHits (A ++ B) r = fillHits B (fillHits A r) := by
  unfold fillHits
  rw [List.foldl_append]

lemma fillHits_length : ∀ (items : List BatchItem) (r : List (Option BatchResult)),
    (fillHits items r).length = r.length := by
  intro items
  induction items with
  | nil =>
    intro r
    rfl
  | cons x rest ih =>
    intro r
    rw [fillHits_cons, ih]
    rcases hx : x.cached with _ | row <;> simp

lemma fillHits_untouched : ∀ (items : List BatchItem) (r : List (Option BatchResult)) (j : Nat),
    (∀ it ∈ items, it.index = j → it.cached = none) →
    (fillHits items r)[j]? = r[j]? := by
  intro items
  induction items with
  | nil =>
    intro r j _
    rfl
  | cons x rest ih =>
    intro r j hno
    rw [fillHits_cons, ih _ j (fun it hit => hno it (List.mem_cons_of_mem x hit))]
    rcases hx : x.cached with _ | row
    · rfl
    · have hxj : x.index ≠ j := by
        intro heq
        have hcontra := hno x (List.mem_cons_self x rest) heq
        rw [hx] at hcontra
        cases hcontra
      rw [List.getElem?_set_ne hxj]

lemma fillMissGo_cons (embs : List (List Int)) (r : List (Option BatchResult)) (i : Nat)
    (x : BatchItem) (rest : List BatchItem) :
    fillMissGo embs r i (x :: rest) = fillMissGo embs
      (if i < embs.length then
        r.set x.index (some { embedding := embs.getD i [], cached := false, index := x.index })
      else r) (i + 1) rest := rfl

lemma fillMissGo_length (embs : List (List Int)) :
    ∀ (us : List BatchItem) (r : List (Option BatchResult)) (i : Nat),
      (fillMissGo embs r i us).length = r.length := by
  intro us
  induction us with
  | nil =>
    intro r i
    rfl
  | cons x rest ih =>
    intro r i
    rw [fillMissGo_cons, ih]
    by_cases hc : i < embs.length
    · rw [if_pos hc]
      simp
    · rw [if_neg hc]

lemma fillMissGo_append (embs : List (List Int)) :
    ∀ (A B : List BatchItem) (r : List (Option BatchResult)) (i : Nat),
      fillMissGo embs r i (A ++ B) =
        fillMissGo embs (fillMissGo embs r i A) (i + A.length) B := by
  intro A
  induction A with
  | nil =>
    intro B r i
    rfl
  | cons x rest ih =>
    intro B r i
    rw [List.cons_append, fillMissGo_cons, fillMissGo_cons, ih,
      show i + 1 + rest.length = i + (x :: rest).length from by simp; omega]

lemma fillMissGo_untouched (embs : List (List Int)) :
    ∀ (us : List BatchItem) (r : List (Option BatchResult)) (i : Nat) (j : Nat),
      (∀ it ∈ us, it.index ≠ j) → (fillMissGo embs r i us)[j]? = r[j]? := by
  intro us
  induction us with
  | nil =>
    intro r i j _
    rfl
  | cons x rest ih =>
    intro r i j hno
    rw [fillMissGo_cons, ih _ _ j (fun it hit => hno it (List.mem_cons_of_mem x hit))]
    by_cases hc : i < embs.length
    · rw [if_pos hc, List.getElem?_set_ne (hno x (List.mem_cons_self x rest))]
    · rw [if_neg hc]

lemma attachOne_index (tbl : List Store.CacheRow) (item : BatchItem) :
    (attachOne tbl item).index = item.index := by
  unfold attachOne
  rcases hlook : Store.GetCachedEmbedding tbl item.hash with _ | row <;> rfl

lemma assemble_spec (tbl : List Store.CacheRow) (hashFn : String → String → String)
    (m : String) (inputs : List String)
    (hnodup : (inputs.map (fun s => hashFn s m)).Nodup)
    (embs : List (List Int))
    (hlen : ((List.range inputs.length).filter (fun j =>
        (Store.GetCachedEmbedding tbl (hashFn (inputs.getD j "") m)).isNone)).length ≤
      embs.length)
    (i : Nat) (hi : i < inputs.length) :
    (assembleBatchResults
        (GetBatchCachedEmbeddings tbl (prepareBatchItems hashFn inputs m))
        (getUncachedItems (GetBatchCachedEmbeddings tbl (prepareBatchItems hashFn inputs m)))
        embs inputs.length)[i]? =
      some (match Store.GetCachedEmbedding tbl (hashFn (inputs.getD i "") m) with
        | some row => some { embedding := row.embeddingVector, cached := true, index := i }
        | none => some { embedding := embs.getD (missRank tbl hashFn inputs m i) [],
                         cached := false, index := i }) := by
  unfold assembleBatchResults
  rw [uncached_eq_of_nodup tbl hashFn m inputs hnodup,
    attached_eq_of_nodup tbl hashFn m inputs hnodup]
  have hAne : ∀ it ∈ (List.range i).map (fun j => attachOne tbl (itemAt hashFn m inputs j)),
      it.index = i → it.cached = none := by
    intro it hit hidx
    exfalso
    rcases List.mem_map.mp hit with ⟨j, hj, rfl⟩
    rw [attachOne_index] at hidx
    have hji := List.mem_range.mp hj
    simp only [itemAt] at hidx
    omega
  have hBne : ∀ it ∈ (List.range' (i + 1) (inputs.length - i - 1)).map
      (fun j => attachOne tbl (itemAt hashFn m inputs j)), it.index = i → it.cached = none := by
    intro it hit hidx
    exfalso
    rcases List.mem_map.mp hit with ⟨j, hj, rfl⟩
    rw [attachOne_index] at hidx
    have hji := List.mem_range'_1.mp hj
    simp only [itemAt] at hidx
    omega
  have hui : (attachOne tbl (itemAt hashFn m inputs i)).cached =
      Store.GetCachedEmbedding tbl (hashFn (inputs.getD i "") m) :=
    attachOne_cached tbl (itemAt hashFn m inputs i) rfl
  have hlenR1 : (fillHits ((List.range inputs.length).map
      (fun j => attachOne tbl (itemAt hashFn m inputs j)))
      (List.replicate inputs.length (none : Option BatchResult))).length = inputs.length := by
    rw [fillHits_length, List.length_replicate]
  rcases hlook : Store.GetCachedEmbedding tbl (hashFn (inputs.getD i "") m) with _ | row
  · -- cache miss at position i: the second loop sets slot i
    rw [hlook] at hui
    have hq : (fun j =>
        (Store.GetCachedEmbedding tbl (hashFn (inputs.getD j "") m)).isNone) i = true := by
      show (Store.GetCachedEmbedding tbl (hashFn (inputs.getD i "") m)).isNone = true
      rw [hlook]
      rfl
    have hsplitMiss : (List.range inputs.length).filter (fun j =>
        (Store.GetCachedEmbedding tbl (hashFn (inputs.getD j "") m)).isNone) =
        ((List.range i).filter (fun j =>
          (Store.GetCachedEmbedding tbl (hashFn (inputs.getD j "") m)).isNone)) ++
        i :: ((List.range' (i + 1) (inputs.length - i - 1)).filter (fun j =>
          (Store.GetCachedEmbedding tbl (hashFn (inputs.getD j "") m)).isNone)) := by
      rw [range_split inputs.length i hi, List.filter_append, List.filter_cons, if_pos hq]
    have hkdef : ((List.range i).filter (fun j =>
        (Store.GetCachedEmbedding tbl (hashFn (inputs.getD j "") m)).isNone)).length =
        missRank tbl hashFn inputs m i := rfl
    have hk : missRank tbl hashFn inputs m i < embs.length := by
      rw [hsplitMiss] at hlen
      rw [List.length_append, List.length_cons] at hlen
      rw [← hkdef]
      omega
    have hbne2 : ∀ it ∈ ((List.range' (i + 1) (inputs.length - i - 1)).filter (fun j =>
        (Store.GetCachedEmbedding tbl (hashFn (inputs.getD j "") m)).isNone)).map
        (fun j => attachOne tbl (itemAt hashFn m inputs j)), it.index ≠ i := by
      intro it hit
      rcases List.mem_map.mp hit with ⟨j, hj, rfl⟩
      rw [attachOne_index]
      have hji := List.mem_range'_1.mp (List.mem_of_mem_filter hj)
      simp only [itemAt]
      omega
    rw [hsplitMiss, List.map_append, List.map_cons, fillMissGo_append, fillMissGo_cons]
    rw [List.length_map, Nat.zero_add, hkdef, if_pos hk]
    rw [fillMissGo_untouched embs _ _ _ i hbne2]
    rw [attachOne_index]
    simp only [itemAt]
    rw [List.getElem?_set]
    rw [if_pos rfl,
      if_pos (by rw [fillMissGo_length, fillHits_length, List.length_replicate]; exact hi)]
  · -- cache hit at position i: the first loop placed the row, the second never touches i
    rw [hlook] at hui
    have hnotin : ∀ it ∈ ((List.range inputs.length).filter (fun j =>
        (Store.GetCachedEmbedding tbl (hashFn (inputs.getD j "") m)).isNone)).map
        (fun j => attachOne tbl (itemAt hashFn m inputs j)), it.index ≠ i := by
      intro it hit
      rcases List.mem_map.mp hit with ⟨j, hj, rfl⟩
      rw [attachOne_index]
      have hqj := (List.mem_filter.mp hj).2
      have hji : j ≠ i := by
        intro heq
        rw [heq] at hqj
        show False
        revert hqj
        show ¬ ((Store.GetCachedEmbedding tbl (hashFn (inputs.getD i "") m)).isNone = true)
        rw [hlook]
        simp
      simp only [itemAt]
      exact hji
    rw [fillMissGo_untouched embs _ _ _ i hnotin]
    rw [range_split inputs.length i hi, List.map_append, List.map_cons, fillHits_append,
      fillHits_cons]
    rw [fillHits_untouched _ _ i hBne]
    rw [hui]
    rw [attachOne_index]
    simp only [itemAt]
    rw [List.getElem?_set]
    rw [if_pos rfl, if_pos (by rw [fillHits_length, List.length_replicate]; exact hi)]

lemma attachOne_input (tbl : List Store.CacheRow) (item : BatchItem) :
    (attachOne tbl item).input = item.input := by
  unfold attachOne
  rcases hlook : Store.GetCachedEmbedding tbl item.hash with _ | row <;> rfl

lemma assemble_length (items uncached : List BatchItem) (embs : List (List Int)) (n : Nat) :
    (assembleBatchResults items uncached embs n).length = n := by
  unfold assembleBatchResults
  rw [fillMissGo_length, fillHits_length, List.length_replicate]

lemma extract_embeddings_getD (results : List (Option BatchResult)) (i : Nat)
    (br : BatchResult) (h : results[i]? = some (some br)) :
    (extractEmbeddings results).getD i [] = br.embedding := by
  unfold extractEmbeddings
  rw [List.getD_eq_getElem?_getD, List.getElem?_map, h]
  rfl

lemma extract_flags_getD (results : List (Option BatchResult)) (i : Nat)
    (br : BatchResult) (h : results[i]? = some (some br)) :
    (extractCachedFlags results).getD i false = br.cached := by
  unfold extractCachedFlags
  rw [List.getD_eq_getElem?_getD, List.getElem?_map, h]
  rfl

lemma processBatch_reduced (c : CacheDeps) (tbl : List Store.CacheRow) (now idBase : Nat)
    (inputs : List String) (reqModel : String)
    (h1 : inputs.length ≠ 0) (h2 : ¬ (inputs.length > 1000)) :
    processBatchRequest c tbl now idBase { input := .strArray inputs, model := reqModel } =
      (match (if (getUncachedItems (GetBatchCachedEmbeddings tbl (prepareBatchItems c.hashFn
                inputs (if reqModel = "" then c.dfltModel else reqModel)))).isEmpty
             then Except.ok ([], tbl)
             else
               match c.provider (batchProviderInputs (getUncachedItems
                   (GetBatchCachedEmbeddings tbl (prepareBatchItems c.hashFn inputs
                     (if reqModel = "" then c.dfltModel else reqModel))))) with
               | .error e => .error e
               | .ok r =>
                 .ok (r.embeddings, storeBatchEmbeddings now idBase
                     (if reqModel = "" then c.dfltModel else reqModel) tbl
                     (getUncachedItems (GetBatchCachedEmbeddings tbl
                       (prepareBatchItems c.hashFn inputs
                         (if reqModel = "" then c.dfltModel else reqModel))))
                     r.embeddings)) with
       | .error e => (.error (.providerErr e), tbl)
       | .ok (aiEmbs, tbl2) =>
         (.ok { embeddings := extractEmbeddings (assembleBatchResults
                  (GetBatchCachedEmbeddings tbl (prepareBatchItems c.hashFn inputs
                    (if reqModel = "" then c.dfltModel else reqModel)))
                  (getUncachedItems (GetBatchCachedEmbeddings tbl
                    (prepareBatchItems c.hashFn inputs
                      (if reqModel = "" then c.dfltModel else reqModel))))
                  aiEmbs inputs.length),
                model := if reqModel = "" then c.dfltModel else reqModel,
                cachedItems := extractCachedFlags (assembleBatchResults
                  (GetBatchCachedEmbeddings tbl (prepareBatchItems c.hashFn inputs
                    (if reqModel = "" then c.dfltModel else reqModel)))
                  (getUncachedItems (GetBatchCachedEmbeddings tbl
                    (prepareBatchItems c.hashFn inputs
                      (if reqModel = "" then c.dfltModel else reqModel))))
                  aiEmbs inputs.length) }, tbl2)) := by
  show (if inputs.length = 0 then ((Except.error ProcErr.emptyBatch : Except ProcErr EmbeddingResponse), tbl)
        else if inputs.length > 1000 then (.error .batchTooLarge, tbl)
        else _) = _
  rw [if_neg h1, if_neg h2]

end Cache

/-- C1 counterexample: the batch ["a", "a"] with the fingerprint of "a"
present in the store.  Both positions carry a stored fingerprint, yet
the response marks position 0 as a miss and returns the provider's
vector [9] there instead of the stored vector [7]: the `hashToItem` map
attaches the row only to the last duplicate occurrence. -/
theorem c1_counterexample :
    (Cache.processBatchRequest Fix.deps Fix.tbl 100 50 { input := .strArray ["a", "a"] }).1 =
      .ok { embeddings := [[9], [7]], model := "m", cachedItems := [false, true],
            promptTokens := 0, totalTokens := 0 } ∧
    Store.GetCachedEmbedding Fix.tbl (Fix.hf "a" "m") = some Fix.row1 ∧
    Fix.row1.embeddingVector = [7] :=
  ⟨rfl, rfl, rfl⟩

/-- C9: duplicate inputs in one batch.  When the same fingerprint
occurs at positions p < q, the batch lookup leaves position p
unattached (its `cached` stays nil) and forwards its text to the
provider as a miss; only an occurrence with no later equal fingerprint
— the last in request order — receives the stored row.  Consequently
equal inputs in one batch can receive different hit-flags, as the
concrete batch ["a", "a"] against a store containing "a" shows:
flags [false, true]. -/
theorem c9_duplicate_inputs :
    (∀ (hashFn : String → String → String) (m : String) (tbl : List Store.CacheRow)
        (inputs : List String) (p q : Nat), p < q → q < inputs.length →
      hashFn (inputs.getD q "") m = hashFn (inputs.getD p "") m →
      (Cache.GetBatchCachedEmbeddings tbl (Cache.prepareBatchItems hashFn inputs m))[p]? =
        some (Cache.itemAt hashFn m inputs p) ∧
      inputs.getD p "" ∈ Cache.batchProviderInputs (Cache.getUncachedItems
        (Cache.GetBatchCachedEmbeddings tbl (Cache.prepareBatchItems hashFn inputs m)))) ∧
    (∀ (hashFn : String → String → String) (m : String) (tbl : List Store.CacheRow)
        (inputs : List String) (p : Nat), p < inputs.length →
      (∀ j, p < j → j < inputs.length →
        hashFn (inputs.getD j "") m ≠ hashFn (inputs.getD p "") m) →
      ∀ row, Store.GetCachedEmbedding tbl (hashFn (inputs.getD p "") m) = some row →
      (Cache.GetBatchCachedEmbeddings tbl (Cache.prepareBatchItems hashFn inputs m))[p]? =
        some { Cache.itemAt hashFn m inputs p with cached := some row }) ∧
    (Cache.processBatchRequest Fix.deps Fix.tbl 100 50
        { input := .strArray ["a", "a"] }).1 =
      .ok { embeddings := [[9], [7]], model := "m", cachedItems := [false, true],
            promptTokens := 0, totalTokens := 0 } := by
  refine ⟨?_, ?_, rfl⟩
  · intro hashFn m tbl inputs p q hpq hq hsame
    have hgetp := Cache.attached_notlast tbl hashFn m inputs p q hpq hq hsame
    refine ⟨hgetp, ?_⟩
    have hmem : Cache.itemAt hashFn m inputs p ∈
        Cache.GetBatchCachedEmbeddings tbl (Cache.prepareBatchItems hashFn inputs m) := by
      rcases List.getElem?_eq_some.mp hgetp with ⟨hlt, hget⟩
      exact hget ▸ List.getElem_mem hlt
    exact Cache.uncached_input_mem _ _ hmem rfl
  · intro hashFn m tbl inputs p hp hlast row hrow
    rw [Cache.attached_last tbl hashFn m inputs p hp hlast]
    unfold Cache.attachOne
    rw [show (Cache.itemAt hashFn m inputs p).hash = hashFn (inputs.getD p "") m from rfl, hrow]
    rfl

/-- C9 witness: on the batch ["a", "a"] with "a" cached, position 0
(the non-last duplicate) stays unattached and its text is in the
provider call, while position 1 (the last occurrence) receives the
stored row. -/
theorem c9_duplicate_inputs_witness :
    ((Cache.GetBatchCachedEmbeddings Fix.tbl
        (Cache.prepareBatchItems Fix.hf ["a", "a"] "m"))[0]? =
      some (Cache.itemAt Fix.hf "m" ["a", "a"] 0) ∧
      "a" ∈ Cache.batchProviderInputs (Cache.getUncachedItems
        (Cache.GetBatchCachedEmbeddings Fix.tbl
          (Cache.prepareBatchItems Fix.hf ["a", "a"] "m")))) ∧
    (Cache.GetBatchCachedEmbeddings Fix.tbl
        (Cache.prepareBatchItems Fix.hf ["a", "a"] "m"))[1]? =
      some { Cache.itemAt Fix.hf "m" ["a", "a"] 1 with cached := some Fix.row1 } :=
  ⟨c9_duplicate_inputs.1 Fix.hf "m" Fix.tbl ["a", "a"] 0 1 (by decide) (by decide) rfl,
   c9_duplicate_inputs.2.1 Fix.hf "m" Fix.tbl ["a", "a"] 1 (by decide)
     (by
       intro j h1 h2
       exfalso
       have hl : (["a", "a"] : List String).length = 2 := rfl
       omega) Fix.row1 rfl⟩

/-- C1 amended: the batch ordering invariant, provided the batch's
fingerprints are pairwise distinct (in particular, no duplicate
inputs).  For any store and any batch of 1..1000 inputs whose provider
returns one vector per submitted miss text, the batch path succeeds
and, at every position i: if position i's fingerprint is in the store,
the response carries the stored vector and a true hit-flag; otherwise
it carries the provider's k-th vector, where k is the number of misses
before position i (the positional miss-rank), and a false hit-flag. -/
theorem c1_batch_ordering (c : Cache.CacheDeps) (tbl : List Store.CacheRow)
    (now idBase : Nat) (inputs : List String) (reqModel modelName : String)
    (r : Cache.ProviderSuccess)
    (hm : modelName = if reqModel = "" then c.dfltModel else reqModel)
    (h1 : 1 ≤ inputs.length) (h2 : inputs.length ≤ 1000)
    (hnodup : (inputs.map (fun s => c.hashFn s modelName)).Nodup)
    (hcall : c.provider (Cache.batchProviderInputs (Cache.getUncachedItems
      (Cache.GetBatchCachedEmbeddings tbl
        (Cache.prepareBatchItems c.hashFn inputs modelName)))) = .ok r)
    (hrlen : r.embeddings.length = (Cache.batchProviderInputs (Cache.getUncachedItems
      (Cache.GetBatchCachedEmbeddings tbl
        (Cache.prepareBatchItems c.hashFn inputs modelName)))).length) :
    ∃ resp : Cache.EmbeddingResponse,
      (Cache.processBatchRequest c tbl now idBase
        { input := .strArray inputs, model := reqModel }).1 = .ok resp ∧
      resp.model = modelName ∧
      resp.embeddings.length = inputs.length ∧
      resp.cachedItems.length = inputs.length ∧
      ∀ i, i < inputs.length →
        (∀ row, Store.GetCachedEmbedding tbl (c.hashFn (inputs.getD i "") modelName) = some row →
          resp.embeddings.getD i [] = row.embeddingVector ∧
          resp.cachedItems.getD i false = true) ∧
        (Store.GetCachedEmbedding tbl (c.hashFn (inputs.getD i "") modelName) = none →
          resp.embeddings.getD i [] =
            r.embeddings.getD (Cache.missRank tbl c.hashFn inputs modelName i) [] ∧
          resp.cachedItems.getD i false = false) := by
  have hred := Cache.processBatch_reduced c tbl now idBase inputs reqModel
    (by omega) (by omega)
  rw [← hm] at hred
  have hmissLen : (Cache.batchProviderInputs (Cache.getUncachedItems
      (Cache.GetBatchCachedEmbeddings tbl
        (Cache.prepareBatchItems c.hashFn inputs modelName)))).length =
      ((List.range inputs.length).filter (fun j =>
        (Store.GetCachedEmbedding tbl (c.hashFn (inputs.getD j "") modelName)).isNone)).length := by
    unfold Cache.batchProviderInputs
    rw [List.length_map, Cache.uncached_eq_of_nodup tbl c.hashFn modelName inputs hnodup,
      List.length_map]
  by_cases hempty : (Cache.getUncachedItems (Cache.GetBatchCachedEmbeddings tbl
      (Cache.prepareBatchItems c.hashFn inputs modelName))).isEmpty
  · -- every position is a cache hit; no provider call is made
    rw [if_pos hempty] at hred
    have hmissNil : ((List.range inputs.length).filter (fun j =>
        (Store.GetCachedEmbedding tbl (c.hashFn (inputs.getD j "") modelName)).isNone)) = [] := by
      have huncachedNil : Cache.getUncachedItems (Cache.GetBatchCachedEmbeddings tbl
          (Cache.prepareBatchItems c.hashFn inputs modelName)) = [] :=
        List.isEmpty_iff.mp hempty
      rw [Cache.uncached_eq_of_nodup tbl c.hashFn modelName inputs hnodup] at huncachedNil
      exact List.map_eq_nil_iff.mp huncachedNil
    have hnomiss : ∀ i, i < inputs.length →
        Store.GetCachedEmbedding tbl (c.hashFn (inputs.getD i "") modelName) ≠ none := by
      intro i hi hni
      have hmem : i ∈ (List.range inputs.length).filter (fun j =>
          (Store.GetCachedEmbedding tbl (c.hashFn (inputs.getD j "") modelName)).isNone) := by
        apply List.mem_filter.mpr
        refine ⟨List.mem_range.mpr hi, ?_⟩
        show (Store.GetCachedEmbedding tbl (c.hashFn (inputs.getD i "") modelName)).isNone = true
        rw [hni]
        rfl
      rw [hmissNil] at hmem
      cases hmem
    refine ⟨_, by rw [hred], rfl, ?_, ?_, ?_⟩
    · unfold Cache.extractEmbeddings
      rw [List.length_map, Cache.assemble_length]
    · unfold Cache.extractCachedFlags
      rw [List.length_map, Cache.assemble_length]
    · intro i hi
      have hspec := Cache.assemble_spec tbl c.hashFn modelName inputs hnodup []
        (by rw [hmissNil]; exact Nat.le_refl 0) i hi
      constructor
      · intro row hrow
        rw [hrow] at hspec
        exact ⟨Cache.extract_embeddings_getD _ i _ hspec,
          Cache.extract_flags_getD _ i _ hspec⟩
      · intro hnone
        exact absurd hnone (hnomiss i hi)
  · -- at least one miss: the provider is called once on the miss texts
    rw [if_neg hempty, hcall] at hred
    have hlenOk : ((List.range inputs.length).filter (fun j =>
        (Store.GetCachedEmbedding tbl (c.hashFn (inputs.getD j "") modelName)).isNone)).length ≤
        r.embeddings.length := by
      rw [hrlen, hmissLen]
    refine ⟨_, by rw [hred], rfl, ?_, ?_, ?_⟩
    · unfold Cache.extractEmbeddings
      rw [List.length_map, Cache.assemble_length]
    · unfold Cache.extractCachedFlags
      rw [List.length_map, Cache.assemble_length]
    · intro i hi
      have hspec := Cache.assemble_spec tbl c.hashFn modelName inputs hnodup r.embeddings
        hlenOk i hi
      constructor
      · intro row hrow
        rw [hrow] at hspec
        exact ⟨Cache.extract_embeddings_getD _ i _ hspec,
          Cache.extract_flags_getD _ i _ hspec⟩
      · intro hnone
        rw [hnone] at hspec
        exact ⟨Cache.extract_embeddings_getD _ i _ hspec,
          Cache.extract_flags_getD _ i _ hspec⟩

/-- C1 witness: the amended invariant applied to the concrete batch
["x", "a"] against the one-row store (a miss then a hit), with every
hypothesis discharged by evaluation. -/
theorem c1_batch_ordering_witness :
    ∃ resp : Cache.EmbeddingResponse,
      (Cache.processBatchRequest Fix.deps Fix.tbl 100 50
        { input := .strArray ["x", "a"], model := "m" }).1 = .ok resp ∧
      resp.model = "m" ∧
      resp.embeddings.length = (["x", "a"] : List String).length ∧
      resp.cachedItems.length = (["x", "a"] : List String).length ∧
      ∀ i, i < (["x", "a"] : List String).length →
        (∀ row, Store.GetCachedEmbedding Fix.tbl
            (Fix.deps.hashFn ((["x", "a"] : List String).getD i "") "m") = some row →
          resp.embeddings.getD i [] = row.embeddingVector ∧
          resp.cachedItems.getD i false = true) ∧
        (Store.GetCachedEmbedding Fix.tbl
            (Fix.deps.hashFn ((["x", "a"] : List String).getD i "") "m") = none →
          resp.embeddings.getD i [] =
            ({ embeddings := [[9]], model := "m", promptTokens := 5, totalTokens := 6 } :
              Cache.ProviderSuccess).embeddings.getD
              (Cache.missRank Fix.tbl Fix.deps.hashFn ["x", "a"] "m" i) [] ∧
          resp.cachedItems.getD i false = false) :=
  c1_batch_ordering Fix.deps Fix.tbl 100 50 ["x", "a"] "m" "m"
    { embeddings := [[9]], model := "m", promptTokens := 5, totalTokens := 6 }
    rfl (by decide) (by decide) (by decide) rfl rfl

end Meep
